import Mathlib

/-!
Verification development for the path-generation core of the `aberke/fractals`
repository (Sierpinski triangle, Sierpinski arrowhead curve, Pythagoras tree).

Shallow embedding conventions:
* JavaScript numbers are modelled as exact rationals (`ℚ`).  The literal
  constants `Math.PI` and `Math.sqrt(2)` are modelled by the exact rational
  values of the IEEE-754 doubles the JavaScript engine uses for them.
* `Math.cos` / `Math.sin` applied to a variable argument are modelled as
  abstract functions `ℚ → ℚ` bundled in a `JsMath` structure; no algebraic
  property of them is assumed except where a theorem explicitly hypothesises
  one (e.g. `cos 0 = 1`).
* A JavaScript function that can crash (calling a method on `undefined`,
  unbounded recursion, a `ReferenceError`) is modelled as returning `none` /
  `Except.error`; a normal return of value `v` is `some v`.
* `x || d` on numbers (JavaScript default-argument idiom) is modelled by
  `jsOrQ` / `jsOrZ` / their `Option` variants: `0` (and a missing argument)
  selects the default, every other number is kept.
-/

namespace Fractals

/-- A point on the plane, mirroring the `{X: Number, Y: Number}` records of the
source. -/
structure Point where
  X : ℚ
  Y : ℚ
deriving DecidableEq, Repr

/-- One drawing command of a Raphael path list.  The constructors mirror the
array literals of the source: `["M",x,y]`, `["L",x,y]`,
`["S",x1,y1,x2,y2]` (from `getCurvedPath`),
`["A",rx,ry,rot,laf,sf,x,y]` (from `getEllipsePath`) and
`["R",x1,y1,x2,y2]` (from `getCatmullRomPath`). -/
inductive Seg where
  | M : Point → Seg
  | L : Point → Seg
  | S : Point → Point → Seg
  | A : ℚ → ℚ → ℚ → ℚ → ℚ → Point → Seg
  | R : Point → Point → Seg
deriving DecidableEq, Repr

/-- The exact rational value of the IEEE-754 double `Math.PI`
(`3.141592653589793115997963…`). -/
def MathPI : ℚ := 884279719003555 / 281474976710656

/-- The exact rational value of the IEEE-754 double `Math.sqrt(2)`
(`1.414213562373095145474621…`). -/
def MathSqrt2 : ℚ := 6369051672525773 / 4503599627370496

/-- Constant `RADIANS_45_DEGREES = Math.PI/4` (part_003/part_004; part_003's second
copy spells it `(2*Math.PI)/8`, the same rational). -/
def RADIANS_45_DEGREES : ℚ := MathPI / 4

/-- Constant `RADIANS_60_DEGREES`: `(2*Math.PI)/6` in `src/js/util.js`, `Math.PI/3` in
part_003/part_004 — the same rational in the exact model. -/
def RADIANS_60_DEGREES : ℚ := (2 * MathPI) / 6

/-- Constant `RADIANS_90_DEGREES = Math.PI/2`. -/
def RADIANS_90_DEGREES : ℚ := MathPI / 2

/-- Constant `RADIANS_360_DEGREES = 2*Math.PI`. -/
def RADIANS_360_DEGREES : ℚ := 2 * MathPI

/-- The opaque trigonometric primitives `Math.cos` / `Math.sin`. -/
structure JsMath where
  cos : ℚ → ℚ
  sin : ℚ → ℚ

/-- JavaScript `x || d` for a number `x` that is present: `0` is falsy and
selects the default. -/
def jsOrQ (x d : ℚ) : ℚ := if x = 0 then d else x

/-- JavaScript `x || d` for an integer-valued argument that is present. -/
def jsOrZ (x d : ℤ) : ℤ := if x = 0 then d else x

/-- JavaScript `x || d` where `x` may also be `undefined` (a missing
options field), for rationals. -/
def jsOrOQ (x : Option ℚ) (d : ℚ) : ℚ :=
  match x with
  | none => d
  | some v => jsOrQ v d

/-- JavaScript `x || d` where `x` may also be `undefined`, for integers. -/
def jsOrOZ (x : Option ℤ) (d : ℤ) : ℤ :=
  match x with
  | none => d
  | some v => jsOrZ v d

/-- The orientation validation shared by the generators:
`if (!(orientation == -1 || orientation == 1)) orientation = 1;`, where the
orientation may also come from a missing options field (`undefined` compares
unequal to both, so it is coerced to `1`). -/
def coerceOrientation (o : Option ℚ) : ℚ :=
  match o with
  | none => 1
  | some v => if v = -1 ∨ v = 1 then v else 1

/-- Embeds `getTriangleHeight(angle, hypotenuseLength)` from `src/js/util.js`
(identical in part_003/part_004): `hypotenuseLength * Math.sin(angle)`. -/
def getTriangleHeight (m : JsMath) (angle hypotenuseLength : ℚ) : ℚ :=
  hypotenuseLength * m.sin angle

/-- Embeds `getNextPoint(fromPoint, distance, angle)` as defined in part_003 and
part_004: rejects (logs and returns `undefined`, modelled `none`) when
`angle > RADIANS_360_DEGREES || angle < -RADIANS_360_DEGREES`, otherwise
offsets `fromPoint` by `distance` along `angle`.  This is the variant the
spec describes and the one the deployed constants file provides. -/
def getNextPoint (m : JsMath) (fromPoint : Point) (distance angle : ℚ) :
    Option Point :=
  if angle > RADIANS_360_DEGREES ∨ angle < -RADIANS_360_DEGREES then none
  else some ⟨fromPoint.X + distance * m.cos angle,
             fromPoint.Y + distance * m.sin angle⟩

/-- Embeds `getNextPoint` as defined in `src/js/util.js`: the guard is
`!(angle < 360 && angle > -360)` — the raw number `360`, not `2π`, even
though every caller passes radians. -/
def getNextPointUtil (m : JsMath) (fromPoint : Point) (distance angle : ℚ) :
    Option Point :=
  if ¬(angle < 360 ∧ angle > -360) then none
  else some ⟨fromPoint.X + distance * m.cos angle,
             fromPoint.Y + distance * m.sin angle⟩

/-- Embeds `addLine(pathList, nextPoint)`: appends an `["L",x,y]` segment. -/
def addLine (pathList : List Seg) (nextPoint : Point) : List Seg :=
  pathList ++ [Seg.L nextPoint]

/-- Embeds `rotatePoint(point, angle, center)` from part_003/part_004: translate,
apply the 2D rotation matrix, translate back.  The `center` argument is
optional (`center = center || {X:0, Y:0}`). -/
def rotatePoint (m : JsMath) (point : Point) (angle : ℚ)
    (center : Option Point) : Point :=
  let c := center.getD ⟨0, 0⟩
  let tX := point.X - c.X
  let tY := point.Y - c.Y
  ⟨tX * m.cos angle - tY * m.sin angle + c.X,
   tX * m.sin angle + tY * m.cos angle + c.Y⟩

/-- The body of the `for (i=0; i<3; i++)` loop of
`getEquilateralTrianglePathList`, with the iteration count as fuel.  Each
round fetches the next corner with `getNextPoint` (which can fail, crashing
the JavaScript loop — modelled by propagating `none`), appends a line, and
advances the angle by `orientation * (2*Math.PI)/3`. -/
def triangleLoop (m : JsMath) (sideLength o : ℚ) :
    ℕ → List Seg → Point → ℚ → Option (List Seg)
  | 0, pathList, _, _ => some pathList
  | i + 1, pathList, point, angle => do
      let p ← getNextPoint m point sideLength angle
      triangleLoop m sideLength o i (addLine pathList p) p
        (angle + o * ((2 * MathPI) / 3))

/-- Embeds `getEquilateralTrianglePathList(startPoint, sideLength, orientation)`
(`src/js/sierpinski-triangle.js`, both copies; `src/js/shapes.js` second copy
is identical): `[["M",x,y]]` followed by three `addLine` rounds turning by
`orientation * 120°` each time.  `orientation = orientation || 1`. -/
def getEquilateralTrianglePathList (m : JsMath) (startPoint : Point)
    (sideLength o : ℚ) : Option (List Seg) :=
  triangleLoop m sideLength (jsOrQ o 1) 3 [Seg.M startPoint] startPoint 0

/-! ### Sierpinski triangle (`src/js/sierpinski-triangle.js`) -/

/-- Embeds `sierpinskiTriangleRoutine(centerPoint, sideLength, order, orientation)`
(first copy of `src/js/sierpinski-triangle.js`, lines 52–90): depth-first
recursion.  Base case `order <= 0` returns `[]`; otherwise it draws the
triangle whose start corner is half a side left and half a height towards
the tip of `centerPoint`, then recurses on the left, right and vertical
children with half the side length and `order - 1`.  A crash of
`getEquilateralTrianglePathList` (impossible for `orientation = ±1`)
propagates as `none`. -/
def sierpinskiTriangleRoutine (m : JsMath) (centerPoint : Point)
    (sideLength : ℚ) (order : ℤ) (o : ℚ) : Option (List Seg) :=
  if order ≤ 0 then some []
  else
    let height := getTriangleHeight m RADIANS_60_DEGREES sideLength
    let startPoint : Point :=
      ⟨centerPoint.X - (1/2) * sideLength,
       centerPoint.Y - o * (1/2) * height⟩
    do
      let pathList ← getEquilateralTrianglePathList m startPoint sideLength o
      let leftPathList ← sierpinskiTriangleRoutine m
        ⟨centerPoint.X - (1/2) * sideLength,
         centerPoint.Y + o * (1/4) * height⟩ (sideLength/2) (order - 1) o
      let rightPathList ← sierpinskiTriangleRoutine m
        ⟨centerPoint.X + (1/2) * sideLength,
         centerPoint.Y + o * (1/4) * height⟩ (sideLength/2) (order - 1) o
      let verticalPathList ← sierpinskiTriangleRoutine m
        ⟨centerPoint.X,
         centerPoint.Y - o * (3/4) * height⟩ (sideLength/2) (order - 1) o
      some (pathList ++ leftPathList ++ rightPathList ++ verticalPathList)
termination_by order.toNat
decreasing_by all_goals omega

/-- Embeds `recursiveSierpinskiTriangleRoutine(centerPoint, sideLength, level,
orientation, options)` (second copy of `src/js/sierpinski-triangle.js`,
lines 262–303) at the default `options.levelChange = {l:1, r:1, v:1}`:
with that default the body is identical to `sierpinskiTriangleRoutine`,
decrementing the level by 1 on all three children. -/
def recursiveSierpinskiTriangleRoutine (m : JsMath) (centerPoint : Point)
    (sideLength : ℚ) (level : ℤ) (o : ℚ) : Option (List Seg) :=
  if level ≤ 0 then some []
  else
    let height := getTriangleHeight m RADIANS_60_DEGREES sideLength
    let startPoint : Point :=
      ⟨centerPoint.X - (1/2) * sideLength,
       centerPoint.Y - o * (1/2) * height⟩
    do
      let pathList ← getEquilateralTrianglePathList m startPoint sideLength o
      let leftPathList ← recursiveSierpinskiTriangleRoutine m
        ⟨centerPoint.X - (1/2) * sideLength,
         centerPoint.Y + o * (1/4) * height⟩ (sideLength/2) (level - 1) o
      let rightPathList ← recursiveSierpinskiTriangleRoutine m
        ⟨centerPoint.X + (1/2) * sideLength,
         centerPoint.Y + o * (1/4) * height⟩ (sideLength/2) (level - 1) o
      let verticalPathList ← recursiveSierpinskiTriangleRoutine m
        ⟨centerPoint.X,
         centerPoint.Y - o * (3/4) * height⟩ (sideLength/2) (level - 1) o
      some (pathList ++ leftPathList ++ rightPathList ++ verticalPathList)
termination_by level.toNat
decreasing_by all_goals omega

/-- A queue entry of the iterative routine: the
`{centerPoint: ..., sideLength: ...}` records pushed on `triangleQueue`. -/
structure TriangleTask where
  centerPoint : Point
  sideLength : ℚ
deriving DecidableEq, Repr

/-- The body of the `while (triangleQueue.length < Math.pow(3, level))` loop
of `iterativeSierpinskiTriangleRoutine`: pop the first triangle, emit its
path, push its three children (half side length).  The `queue = []` branch
is unreachable from the seeded call (the length grows by 2 per round);
JavaScript would crash there (`shift()` yields `undefined`), modelled by
returning the accumulated list. -/
def iterativeLoop (m : JsMath) (level : ℤ) (o : ℚ) :
    List TriangleTask → List Seg → Option (List Seg)
  | queue, pathList =>
    if h : (queue.length : ℚ) < (3 : ℚ) ^ level then
      match queue with
      | [] => some pathList
      | t :: rest =>
        let centerPoint := t.centerPoint
        let sideLength := t.sideLength
        let height := getTriangleHeight m RADIANS_60_DEGREES sideLength
        let startPoint : Point :=
          ⟨centerPoint.X - (1/2) * sideLength,
           centerPoint.Y - o * (1/2) * height⟩
        do
          let trianglePathList ←
            getEquilateralTrianglePathList m startPoint sideLength o
          iterativeLoop m level o
            (rest ++
              [⟨⟨centerPoint.X - (1/2) * sideLength,
                 centerPoint.Y + o * (1/4) * height⟩, sideLength/2⟩,
               ⟨⟨centerPoint.X + (1/2) * sideLength,
                 centerPoint.Y + o * (1/4) * height⟩, sideLength/2⟩,
               ⟨⟨centerPoint.X,
                 centerPoint.Y - o * (3/4) * height⟩, sideLength/2⟩])
            (pathList ++ trianglePathList)
    else some pathList
termination_by queue => 3 ^ level.toNat + 1 - queue.length
decreasing_by
  simp only [List.length_append, List.length_cons, List.length_nil] at h ⊢
  have hlen : (1 : ℚ) ≤ ((rest.length + 1 : ℕ) : ℚ) := by
    push_cast; linarith [Nat.cast_nonneg (α := ℚ) rest.length]
  have hpos : (0 : ℤ) < level := by
    by_contra hle
    push_neg at hle
    have h1 : (3 : ℚ) ^ level ≤ 1 := zpow_le_one_of_nonpos₀ (by norm_num) hle
    have h2 := lt_of_lt_of_le h h1
    exact absurd hlen (not_le.mpr h2)
  have hcast : (3 : ℚ) ^ level = ((3 ^ level.toNat : ℕ) : ℚ) := by
    rw [← Int.toNat_of_nonneg hpos.le, zpow_natCast]
    push_cast
    rw [Int.toNat_of_nonneg hpos.le]
  rw [hcast] at h
  have hlt : rest.length + 1 < 3 ^ level.toNat := by exact_mod_cast h
  omega

/-- Embeds `iterativeSierpinskiTriangleRoutine(centerPoint, sideLength, level,
orientation)` (`src/js/sierpinski-triangle.js`, lines 186–246):
breadth-first queue seeded with the centre triangle, looped until the queue
length reaches `3^level`. -/
def iterativeSierpinskiTriangleRoutine (m : JsMath) (centerPoint : Point)
    (sideLength : ℚ) (level : ℤ) (o : ℚ) : Option (List Seg) :=
  iterativeLoop m level o [⟨centerPoint, sideLength⟩] []

/-- Embeds `getSierpinskiTriangle(startCenterPoint, sideLength, order, orientation)`
(first copy of `src/js/sierpinski-triangle.js`, lines 18–40):
`order = order || 3` (so `order = 0` selects the default 3); orientations
other than `±1` are coerced to `1`; the inverted outer boundary triangle is
drawn from the bottom-left corner, then the interior is delegated to
`sierpinskiTriangleRoutine` at half the side length. -/
def getSierpinskiTriangle (m : JsMath) (startCenterPoint : Point)
    (sideLength : ℚ) (order : ℤ) (orientation : ℚ) : Option (List Seg) :=
  let order := jsOrZ order 3
  let o := if orientation = -1 ∨ orientation = 1 then orientation else 1
  let height := getTriangleHeight m ((2 * MathPI) / 6) sideLength
  let startPoint : Point :=
    ⟨startCenterPoint.X - (1/2) * sideLength,
     startCenterPoint.Y + o * (1/4) * height⟩
  do
    let pathList ← getEquilateralTrianglePathList m startPoint sideLength (-o)
    let innerTrianglesPathList ←
      sierpinskiTriangleRoutine m startCenterPoint (sideLength/2) order o
    some (pathList ++ innerTrianglesPathList)

/-! ### Sierpinski arrowhead curve (`src/js/sierpinski-arrowhead-curve.js`) -/

/-- Embeds `arrowheadCurve(level, pathList, fromPoint, sideLength, angle,
angleChange, orientation)` (lines 80–112).  The JavaScript mutates
`pathList` and returns `{point, angle}`; here the first component is the
list of segments the call appends, the second and third are the returned
point and angle.  At level 0 one `LineTo` is drawn at heading
`orientation * angle` via `getNextPoint` (whose failure crashes `addLine`
in the source, modelled `none`); otherwise three recursive calls at half
side length thread the running point and angle, turning by
`angleChange * RADIANS_60_DEGREES` between them.  The source recurs with
`level - 1` guarded only by `level == 0`, so a negative level never
terminates; the embedding therefore takes the level as a natural number and
the callers map the JavaScript number onto it. -/
def arrowheadCurve (m : JsMath) :
    ℕ → Point → ℚ → ℚ → ℚ → ℚ → Option (List Seg × Point × ℚ)
  | 0, fromPoint, sideLength, angle, _, o =>
      (getNextPoint m fromPoint sideLength (o * angle)).map
        fun nextPoint => ([Seg.L nextPoint], nextPoint, angle)
  | level + 1, fromPoint, sideLength, angle, angleChange, o => do
      let r1 ← arrowheadCurve m level fromPoint (sideLength/2) angle
        ((-1) * angleChange) o
      let a1 := r1.2.2 + angleChange * RADIANS_60_DEGREES
      let r2 ← arrowheadCurve m level r1.2.1 (sideLength/2) a1 angleChange o
      let a2 := r2.2.2 + angleChange * RADIANS_60_DEGREES
      let r3 ← arrowheadCurve m level r2.2.1 (sideLength/2) a2
        ((-1) * angleChange) o
      some (r1.1 ++ r2.1 ++ r3.1, r3.2.1, r3.2.2)

/-- The options record of the first copy of `getSierpinskiArrowheadCurve`:
`{level, orientation}`. -/
structure ArrowheadOptions where
  level : Option ℤ := none
  orientation : Option ℚ := none

/-- Embeds `getSierpinskiArrowheadCurve(centerPoint, sideLength, options)`
(lines 31–64): `level = options.level || 3`; orientations other than `±1`
coerce to `1`; starts at the bottom-left corner shifted by
`orientation * height/2` from the centre; initial heading `0` for even
levels and `-60°` for odd levels.  A negative `options.level` makes the
source recurse without bound (stack overflow), modelled as `none`. -/
def getSierpinskiArrowheadCurve (m : JsMath) (centerPoint : Point)
    (sideLength : ℚ) (options : ArrowheadOptions) : Option (List Seg) :=
  let level := jsOrOZ options.level 3
  let o := coerceOrientation options.orientation
  let height := getTriangleHeight m ((2 * MathPI) / 6) sideLength
  let startPoint : Point :=
    ⟨centerPoint.X - (1/2) * sideLength,
     centerPoint.Y + o * (1/2) * height⟩
  if level < 0 then none
  else
    let angle : ℚ := if level % 2 = 0 then 0 else 0 - RADIANS_60_DEGREES
    (arrowheadCurve m level.toNat startPoint sideLength angle 1 o).map
      fun r => Seg.M startPoint :: r.1

/-! ### Pythagoras tree (`src/js/pythagoras-tree.js` and part_004) -/

/-- The type of the pluggable `edgePathFunction(fromPoint, toPoint,
centerPoint)`. -/
def EdgeFn : Type := Point → Point → Point → Seg

/-- Embeds `getStraightPath(fromPoint, toPoint)`: `["L", toPoint.X, toPoint.Y]`
(the third argument is not declared in the source; the edge-function call
sites pass the centre point, which it ignores). -/
def getStraightPath : EdgeFn := fun _ toPoint _ => Seg.L toPoint

/-- Embeds `getCurvedPath(fromPoint, toPoint, centerPoint)`:
`["S", toPoint.X, toPoint.Y, fromPoint.X, fromPoint.Y]`. -/
def getCurvedPath : EdgeFn := fun fromPoint toPoint _ => Seg.S toPoint fromPoint

/-- Embeds `getEllipsePath(fromPoint, toPoint, centerPoint)`:
`["A", 5, 5, 0, 1, 1, toPoint.X, toPoint.Y]`. -/
def getEllipsePath : EdgeFn := fun _ toPoint _ => Seg.A 5 5 0 1 1 toPoint

/-- Embeds `getCatmullRomPath(fromPoint, toPoint, centerPoint, multiplier)` with
`multiplier = multiplier || 3/4`. -/
def getCatmullRomPath (fromPoint toPoint centerPoint : Point)
    (multiplier : ℚ) : Seg :=
  let mult := jsOrQ multiplier (3/4)
  Seg.R ⟨fromPoint.X + mult * (centerPoint.X - fromPoint.X),
         fromPoint.Y + mult * (centerPoint.Y - fromPoint.Y)⟩ toPoint

/-- Embeds `getCatmullRomPathRandom(fromPoint, toPoint, centerPoint)` as written in
`src/js/pythagoras-tree.js` (lines 146–149): its body is
`return etCatmullRomPath(fromPoint, toPoint, centerPoint, multiplier)`, and
the identifier `etCatmullRomPath` is defined nowhere in the repository (the
defined function is `getCatmullRomPath`), so every call throws a
`ReferenceError`.  The `Math.random()` draw is passed in as `random`. -/
def getCatmullRomPathRandom (random : ℚ) (fromPoint toPoint centerPoint :
    Point) : Except String Seg :=
  let _ := (random, fromPoint, toPoint, centerPoint)
  Except.error "ReferenceError: etCatmullRomPath is not defined"

/-- The corrected variant of the same function found in part_004 (lines
413–417), which does call `getCatmullRomPath` with the random multiplier. -/
def getCatmullRomPathRandomP4 (random : ℚ)
    (fromPoint toPoint centerPoint : Point) : Except String Seg :=
  Except.ok (getCatmullRomPath fromPoint toPoint centerPoint random)

/-- Embeds `pythagorasTreeSquare(centerPoint, orientation, sideLength,
edgePathFunction)` (lines 90–128): corner points of the axis-aligned square
(via `Math.cos/sin` of `RADIANS_45_DEGREES` on the diagonal
`sideLength * Math.sqrt(2)`), each rotated by `orientation` about the
centre; the emitted group is `MoveTo`-centre, `MoveTo`-bottom-left, then
four edges — the last one drawn from `topRightPoint` to `bottomLeftPoint`
(not from `topLeftPoint`), exactly as in the source.
`edgePathFunction = edgePathFunction || getStraightPath`. -/
def pythagorasTreeSquare (m : JsMath) (centerPoint : Point)
    (orientation sideLength : ℚ) (edgePathFunction : Option EdgeFn) :
    List Seg :=
  let diagonal := sideLength * MathSqrt2
  let bottomLeftPoint := rotatePoint m
    ⟨centerPoint.X - (1/2) * diagonal * m.cos RADIANS_45_DEGREES,
     centerPoint.Y + (1/2) * diagonal * m.sin RADIANS_45_DEGREES⟩
    orientation (some centerPoint)
  let bottomRightPoint := rotatePoint m
    ⟨centerPoint.X + (1/2) * diagonal * m.cos RADIANS_45_DEGREES,
     centerPoint.Y + (1/2) * diagonal * m.sin RADIANS_45_DEGREES⟩
    orientation (some centerPoint)
  let topLeftPoint := rotatePoint m
    ⟨centerPoint.X - (1/2) * diagonal * m.cos RADIANS_45_DEGREES,
     centerPoint.Y - (1/2) * diagonal * m.sin RADIANS_45_DEGREES⟩
    orientation (some centerPoint)
  let topRightPoint := rotatePoint m
    ⟨centerPoint.X + (1/2) * diagonal * m.cos RADIANS_45_DEGREES,
     centerPoint.Y - (1/2) * diagonal * m.sin RADIANS_45_DEGREES⟩
    orientation (some centerPoint)
  let edgeFn := edgePathFunction.getD getStraightPath
  [Seg.M centerPoint,
   Seg.M bottomLeftPoint,
   edgeFn bottomLeftPoint bottomRightPoint centerPoint,
   edgeFn bottomRightPoint topRightPoint centerPoint,
   edgeFn topRightPoint topLeftPoint centerPoint,
   edgeFn topRightPoint bottomLeftPoint centerPoint]

/-- Embeds `pythagorasTreeRoutine(level, pathList, centerPoint, orientation,
sideLength, edgePathFunction)` (`src/js/pythagoras-tree.js`, lines 22–76;
part_004's copy is identical up to parameter order).  The JavaScript
appends to `pathList` in place; the embedding returns the final list.  At
`level <= 0` the list is returned unchanged; otherwise the square group is
appended and the routine recurses into the left (orientation − 45°) and
right (orientation + 45°) children with side length scaled by `√2/2` and
centres displaced by the `tightener = 0.96` formula. -/
def pythagorasTreeRoutine (m : JsMath) (level : ℤ) (pathList : List Seg)
    (centerPoint : Point) (orientation sideLength : ℚ)
    (edgePathFunction : Option EdgeFn) : List Seg :=
  if level ≤ 0 then pathList
  else
    let pathList := pathList ++
      pythagorasTreeSquare m centerPoint orientation sideLength
        edgePathFunction
    let childSideLength := (1/2) * MathSqrt2 * sideLength
    let leftChildOrientation := orientation - RADIANS_45_DEGREES
    let rightChildOrientation := orientation + RADIANS_45_DEGREES
    let tightener : ℚ := 96/100
    let leftChildCenterPoint : Point :=
      ⟨centerPoint.X + ((1/2) * tightener * sideLength * m.cos orientation
          + (3/4) * tightener * sideLength * m.cos leftChildOrientation),
       centerPoint.Y + ((1/2) * tightener * sideLength * m.sin orientation
          + (3/4) * tightener * sideLength * m.sin leftChildOrientation)⟩
    let rightChildCenterPoint : Point :=
      ⟨centerPoint.X + ((1/2) * tightener * sideLength * m.cos orientation
          + (3/4) * tightener * sideLength * m.cos rightChildOrientation),
       centerPoint.Y + ((1/2) * tightener * sideLength * m.sin orientation
          + (3/4) * tightener * sideLength * m.sin rightChildOrientation)⟩
    let pathList := pythagorasTreeRoutine m (level - 1) pathList
      leftChildCenterPoint leftChildOrientation childSideLength
      edgePathFunction
    pythagorasTreeRoutine m (level - 1) pathList
      rightChildCenterPoint rightChildOrientation childSideLength
      edgePathFunction
termination_by level.toNat
decreasing_by all_goals omega

/-- The options record of `getPythagorasTree`:
`{levels, orientation, edgePathFunction}`. -/
structure PythagorasOptions where
  levels : Option ℤ := none
  orientation : Option ℚ := none
  edgePathFunction : Option EdgeFn := none

/-- Embeds `getPythagorasTree(origin, sideLength, options)` (part_004, lines
265–276): `levels = options.levels || 4`,
`orientation = options.orientation || -RADIANS_90_DEGREES` — the
orientation here is an angle in radians, not a `±1` flag, and any truthy
number is used as-is — and
`edgePathFunction = options.edgePathFunction || getStraightPath` (the
default is re-applied inside `pythagorasTreeSquare` either way). -/
def getPythagorasTree (m : JsMath) (origin : Point) (sideLength : ℚ)
    (options : PythagorasOptions) : List Seg :=
  let levels := jsOrOZ options.levels 4
  let orientation := jsOrOQ options.orientation (-RADIANS_90_DEGREES)
  pythagorasTreeRoutine m levels [] origin orientation sideLength
    options.edgePathFunction

/-! ### Proof-layer definitions

Total "shadow" versions of the generators, used to state and prove the
structural lemmas; refinement lemmas connect them to the `Option`-valued
source embeddings under the orientation precondition `o = ±1` (which makes
every `getNextPoint` range check pass). -/

/-- The point `getNextPoint` returns when its range check passes. -/
def nextPointT (m : JsMath) (fromPoint : Point) (distance angle : ℚ) : Point :=
  ⟨fromPoint.X + distance * m.cos angle, fromPoint.Y + distance * m.sin angle⟩

/-- The segment list `getEquilateralTrianglePathList` produces when all three
range checks pass (orientation already coerced). -/
def equilateralTriangleSegs (m : JsMath) (startPoint : Point) (s o : ℚ) :
    List Seg :=
  let p1 := nextPointT m startPoint s 0
  let p2 := nextPointT m p1 s (0 + o * ((2 * MathPI) / 3))
  let p3 := nextPointT m p2 s (0 + o * ((2 * MathPI) / 3) + o * ((2 * MathPI) / 3))
  [Seg.M startPoint, Seg.L p1, Seg.L p2, Seg.L p3]

/-- The 4-segment path a Sierpinski-triangle routine emits for one queue
task. -/
def taskTriangle (m : JsMath) (o : ℚ) (t : TriangleTask) : List Seg :=
  equilateralTriangleSegs m
    ⟨t.centerPoint.X - (1/2) * t.sideLength,
     t.centerPoint.Y - o * (1/2) *
       getTriangleHeight m RADIANS_60_DEGREES t.sideLength⟩
    t.sideLength o

/-- The left child task both routines generate. -/
def leftTask (m : JsMath) (o : ℚ) (t : TriangleTask) : TriangleTask :=
  ⟨⟨t.centerPoint.X - (1/2) * t.sideLength,
    t.centerPoint.Y + o * (1/4) *
      getTriangleHeight m RADIANS_60_DEGREES t.sideLength⟩, t.sideLength/2⟩

/-- The right child task both routines generate. -/
def rightTask (m : JsMath) (o : ℚ) (t : TriangleTask) : TriangleTask :=
  ⟨⟨t.centerPoint.X + (1/2) * t.sideLength,
    t.centerPoint.Y + o * (1/4) *
      getTriangleHeight m RADIANS_60_DEGREES t.sideLength⟩, t.sideLength/2⟩

/-- The vertical child task both routines generate. -/
def vertTask (m : JsMath) (o : ℚ) (t : TriangleTask) : TriangleTask :=
  ⟨⟨t.centerPoint.X,
    t.centerPoint.Y - o * (3/4) *
      getTriangleHeight m RADIANS_60_DEGREES t.sideLength⟩, t.sideLength/2⟩

/-- The three child tasks (left, right, vertical) both routines generate,
in the order they are pushed/recursed. -/
def childTasks (m : JsMath) (o : ℚ) (t : TriangleTask) : List TriangleTask :=
  [leftTask m o t, rightTask m o t, vertTask m o t]

/-- Depth-first (pre-order) list of the tasks visited to depth `d`. -/
def dfsTasks (m : JsMath) (o : ℚ) : ℕ → TriangleTask → List TriangleTask
  | 0, _ => []
  | d + 1, t => t :: (childTasks m o t).flatMap (dfsTasks m o d)

/-- Depth-first segment output of the recursive routine, on natural depth. -/
def dfsSegs (m : JsMath) (o : ℚ) : ℕ → TriangleTask → List Seg
  | 0, _ => []
  | d + 1, t =>
      taskTriangle m o t
        ++ dfsSegs m o d (leftTask m o t)
        ++ dfsSegs m o d (rightTask m o t)
        ++ dfsSegs m o d (vertTask m o t)

/-- Breadth-first (generation-by-generation) list of the tasks of the first
`d` generations of the forest rooted at the queue `Q`. -/
def levelTasks (m : JsMath) (o : ℚ) : ℕ → List TriangleTask → List TriangleTask
  | 0, _ => []
  | d + 1, Q => Q ++ levelTasks m o d (Q.flatMap (childTasks m o))

/-- Exactly `k` rounds of the iterative loop's pop/emit/push step, as a pure
function: returns the emitted segments and the final queue.  (The `[]`
branch is unreachable from the seeded queue.) -/
def bfsPop (m : JsMath) (o : ℚ) : ℕ → List TriangleTask → List Seg × List TriangleTask
  | 0, Q => ([], Q)
  | _ + 1, [] => ([], [])
  | k + 1, t :: Q =>
      let r := bfsPop m o k (Q ++ childTasks m o t)
      (taskTriangle m o t ++ r.1, r.2)

/-- The queue contents after all tasks of the first `d` generations have
been popped: the generation-`d` frontier. -/
def frontierTasks (m : JsMath) (o : ℚ) : ℕ → List TriangleTask → List TriangleTask
  | 0, Q => Q
  | d + 1, Q => frontierTasks m o d (Q.flatMap (childTasks m o))

/-- Number of interior triangles the routines emit at depth `d`:
`S 0 = 0`, `S (d+1) = 1 + 3 * S d`, i.e. `(3^d - 1) / 2`. -/
def sierpinskiTriangleCount : ℕ → ℕ
  | 0 => 0
  | d + 1 => 1 + 3 * sierpinskiTriangleCount d

/-- Decides whether a segment is a `MoveTo`. -/
def isM : Seg → Bool
  | Seg.M _ => true
  | _ => false

/-- Decides whether a segment is a `LineTo`. -/
def isL : Seg → Bool
  | Seg.L _ => true
  | _ => false

/-- Number of `LineTo` segments in a path. -/
def countLineTo (l : List Seg) : ℕ := l.countP isL

/-- Number of `MoveTo` segments in a path. -/
def countMoveTo (l : List Seg) : ℕ := l.countP isM

/-- The endpoint a segment moves/draws to (for `["S",…]` segments, which
never occur in the triangle paths, this is the second listed point). -/
def segEndPoint : Seg → Point
  | Seg.M p => p
  | Seg.L p => p
  | Seg.S _ p => p
  | Seg.A _ _ _ _ _ p => p
  | Seg.R _ p => p

/-- The net heading change of `arrowheadCurve` at depth `d` with turn sign
`ac` (only the returned angle, which is independent of the drawing). -/
def netTurn : ℕ → ℚ → ℚ
  | 0, _ => 0
  | d + 1, ac =>
      netTurn d ((-1) * ac) + ac * RADIANS_60_DEGREES + netTurn d ac
        + ac * RADIANS_60_DEGREES + netTurn d ((-1) * ac)

/-- Whether every heading `arrowheadCurve` draws at, starting from `angle`
with turn sign `ac` at depth `d`, passes `getNextPoint`'s range check.  The
check only depends on the angle state, never on the geometry. -/
def headingsOk : ℕ → ℚ → ℚ → Bool
  | 0, angle, _ =>
      if angle > RADIANS_360_DEGREES ∨ angle < -RADIANS_360_DEGREES then
        false
      else true
  | d + 1, angle, ac =>
      headingsOk d angle ((-1) * ac) &&
      headingsOk d (angle + netTurn d ((-1) * ac) + ac * RADIANS_60_DEGREES) ac &&
      headingsOk d (angle + netTurn d ((-1) * ac) + ac * RADIANS_60_DEGREES
        + netTurn d ac + ac * RADIANS_60_DEGREES) ((-1) * ac)

/-- A concrete instantiation of the opaque trigonometric primitives, used by
witnesses and counterexamples (the structural claims hold for every
`JsMath`; the counterexamples only need one). -/
def mEx : JsMath := ⟨fun _ => 0, fun _ => 0⟩

/-- A concrete `JsMath` whose cosine separates different rotation angles,
used to exhibit that the Pythagoras tree treats its orientation as an
angle. -/
def mExCos : JsMath := ⟨fun x => x, fun _ => 0⟩

/-- A concrete `JsMath` with the exact values `cos 0 = 1`, `sin 0 = 0`
that the identity-rotation theorem hypothesises. -/
def mExRot : JsMath := ⟨fun _ => 1, fun _ => 0⟩

/-- Total shadow of `pythagorasTreeRoutine` on natural depth with an empty
accumulator: the square group followed by the left and right subtrees. -/
def pythagorasSegs (m : JsMath) :
    ℕ → Point → ℚ → ℚ → Option EdgeFn → List Seg
  | 0, _, _, _, _ => []
  | k + 1, centerPoint, orientation, sideLength, e =>
      pythagorasTreeSquare m centerPoint orientation sideLength e
        ++ pythagorasSegs m k
            ⟨centerPoint.X + ((1/2) * (96/100) * sideLength * m.cos orientation
                + (3/4) * (96/100) * sideLength *
                  m.cos (orientation - RADIANS_45_DEGREES)),
             centerPoint.Y + ((1/2) * (96/100) * sideLength * m.sin orientation
                + (3/4) * (96/100) * sideLength *
                  m.sin (orientation - RADIANS_45_DEGREES))⟩
            (orientation - RADIANS_45_DEGREES)
            ((1/2) * MathSqrt2 * sideLength) e
        ++ pythagorasSegs m k
            ⟨centerPoint.X + ((1/2) * (96/100) * sideLength * m.cos orientation
                + (3/4) * (96/100) * sideLength *
                  m.cos (orientation + RADIANS_45_DEGREES)),
             centerPoint.Y + ((1/2) * (96/100) * sideLength * m.sin orientation
                + (3/4) * (96/100) * sideLength *
                  m.sin (orientation + RADIANS_45_DEGREES))⟩
            (orientation + RADIANS_45_DEGREES)
            ((1/2) * MathSqrt2 * sideLength) e

/-! ### Lemmas -/

theorem getNextPoint_inRange (m : JsMath) (p : Point) (dist angle : ℚ)
    (h : ¬(angle > RADIANS_360_DEGREES ∨ angle < -RADIANS_360_DEGREES)) :
    getNextPoint m p dist angle = some (nextPointT m p dist angle) := by
  simp [getNextPoint, nextPointT, h]

theorem getEquilateral_eq (m : JsMath) (sp : Point) (s o : ℚ)
    (ho : o = 1 ∨ o = -1) :
    getEquilateralTrianglePathList m sp s o =
      some (equilateralTriangleSegs m sp s o) := by
  rcases ho with h | h <;> subst h <;>
    simp [getEquilateralTrianglePathList, jsOrQ, triangleLoop,
      equilateralTriangleSegs, addLine, getNextPoint, nextPointT] <;>
    norm_num [RADIANS_360_DEGREES, MathPI]

theorem sierpinskiTriangleRoutine_eq_dfs (m : JsMath) (o : ℚ)
    (ho : o = 1 ∨ o = -1) :
    ∀ (k : ℕ) (order : ℤ), order.toNat = k → ∀ (t : TriangleTask),
      sierpinskiTriangleRoutine m t.centerPoint t.sideLength order o =
        some (dfsSegs m o k t) := by
  intro k
  induction k with
  | zero =>
    intro order hk t
    have h0 : order ≤ 0 := by omega
    rw [sierpinskiTriangleRoutine, if_pos h0]
    simp [dfsSegs]
  | succ n ih =>
    intro order hk t
    have h0 : ¬ order ≤ 0 := by omega
    rw [sierpinskiTriangleRoutine, if_neg h0]
    have hL := ih (order - 1) (by omega) (leftTask m o t)
    have hR := ih (order - 1) (by omega) (rightTask m o t)
    have hV := ih (order - 1) (by omega) (vertTask m o t)
    simp [leftTask, rightTask, vertTask] at hL hR hV
    simp [getEquilateral_eq m _ _ o ho, hL, hR, hV, dfsSegs, taskTriangle,
      leftTask, rightTask, vertTask]

theorem recursiveSierpinskiTriangleRoutine_eq_dfs (m : JsMath) (o : ℚ)
    (ho : o = 1 ∨ o = -1) :
    ∀ (k : ℕ) (level : ℤ), level.toNat = k → ∀ (t : TriangleTask),
      recursiveSierpinskiTriangleRoutine m t.centerPoint t.sideLength level o =
        some (dfsSegs m o k t) := by
  intro k
  induction k with
  | zero =>
    intro level hk t
    have h0 : level ≤ 0 := by omega
    rw [recursiveSierpinskiTriangleRoutine, if_pos h0]
    simp [dfsSegs]
  | succ n ih =>
    intro level hk t
    have h0 : ¬ level ≤ 0 := by omega
    rw [recursiveSierpinskiTriangleRoutine, if_neg h0]
    have hL := ih (level - 1) (by omega) (leftTask m o t)
    have hR := ih (level - 1) (by omega) (rightTask m o t)
    have hV := ih (level - 1) (by omega) (vertTask m o t)
    simp [leftTask, rightTask, vertTask] at hL hR hV
    simp [getEquilateral_eq m _ _ o ho, hL, hR, hV, dfsSegs, taskTriangle,
      leftTask, rightTask, vertTask]

theorem dfsSegs_eq_flatMap (m : JsMath) (o : ℚ) :
    ∀ (d : ℕ) (t : TriangleTask),
      dfsSegs m o d t = (dfsTasks m o d t).flatMap (taskTriangle m o) := by
  intro d
  induction d with
  | zero => intro t; simp [dfsSegs, dfsTasks]
  | succ n ih =>
    intro t
    simp [dfsSegs, dfsTasks, childTasks, ih]

theorem dfsTasks_perm_levelTasks (m : JsMath) (o : ℚ) :
    ∀ (d : ℕ) (Q : List TriangleTask),
      List.Perm (Q.flatMap (dfsTasks m o d)) (levelTasks m o d Q) := by
  intro d
  induction d with
  | zero =>
    intro Q
    simp [dfsTasks, levelTasks]
  | succ n ih =>
    intro Q
    have h1 : Q.flatMap (dfsTasks m o (n + 1)) =
        Q.flatMap (fun t => t :: (childTasks m o t).flatMap (dfsTasks m o n)) := by
      simp [dfsTasks]
    have h2 := List.map_append_flatMap_perm Q (fun t => t)
      (fun t => (childTasks m o t).flatMap (dfsTasks m o n))
    have h3 : (Q.flatMap fun t => (childTasks m o t).flatMap (dfsTasks m o n)) =
        (Q.flatMap (childTasks m o)).flatMap (dfsTasks m o n) := by
      rw [List.flatMap_assoc]
    rw [h1, levelTasks]
    refine h2.symm.trans ?_
    rw [List.map_id', h3]
    exact (ih (Q.flatMap (childTasks m o))).append_left Q

theorem dfsTasks_perm_levelTasks_single (m : JsMath) (o : ℚ) (d : ℕ)
    (t : TriangleTask) :
    List.Perm (dfsTasks m o d t) (levelTasks m o d [t]) := by
  have h := dfsTasks_perm_levelTasks m o d [t]
  simpa using h

theorem bfsPop_pops_queue (m : JsMath) (o : ℚ) :
    ∀ (Q R : List TriangleTask),
      bfsPop m o Q.length (Q ++ R) =
        (Q.flatMap (taskTriangle m o), R ++ Q.flatMap (childTasks m o)) := by
  intro Q
  induction Q with
  | nil => intro R; simp [bfsPop]
  | cons t Q ih =>
    intro R
    simp only [List.length_cons, List.cons_append, bfsPop, List.append_eq,
      List.append_assoc]
    rw [ih (R ++ childTasks m o t)]
    simp [List.append_assoc]

theorem bfsPop_add (m : JsMath) (o : ℚ) :
    ∀ (a b : ℕ) (Q : List TriangleTask),
      bfsPop m o (a + b) Q =
        ((bfsPop m o a Q).1 ++ (bfsPop m o b (bfsPop m o a Q).2).1,
         (bfsPop m o b (bfsPop m o a Q).2).2) := by
  intro a
  induction a with
  | zero => intro b Q; simp [bfsPop]
  | succ n ih =>
    intro b Q
    have hs : n + 1 + b = (n + b) + 1 := by omega
    cases Q with
    | nil =>
      rw [hs]
      cases b <;> simp [bfsPop]
    | cons t Q =>
      rw [hs]
      simp only [bfsPop]
      rw [ih b (Q ++ childTasks m o t)]
      simp [List.append_assoc]

theorem frontier_levelTasks (m : JsMath) (o : ℚ) :
    ∀ (d : ℕ) (Q : List TriangleTask),
      bfsPop m o (levelTasks m o d Q).length Q =
        ((levelTasks m o d Q).flatMap (taskTriangle m o),
         frontierTasks m o d Q) := by
  intro d
  induction d with
  | zero => intro Q; simp [levelTasks, bfsPop, frontierTasks]
  | succ n ih =>
    intro Q
    rw [levelTasks]
    simp only [List.length_append]
    rw [bfsPop_add]
    have hQ : bfsPop m o Q.length Q =
        (Q.flatMap (taskTriangle m o), Q.flatMap (childTasks m o)) := by
      have h := bfsPop_pops_queue m o Q []
      simpa using h
    rw [hQ]
    simp only
    rw [ih (Q.flatMap (childTasks m o))]
    simp [frontierTasks, List.flatMap_append]

theorem iterativeLoop_eq (m : JsMath) (level : ℤ) (o : ℚ) (ho : o = 1 ∨ o = -1) :
    ∀ (k : ℕ) (Q : List TriangleTask) (pl : List Seg),
      1 ≤ Q.length → (3 : ℚ) ^ level = (Q.length : ℚ) + 2 * k →
      iterativeLoop m level o Q pl = some (pl ++ (bfsPop m o k Q).1) := by
  intro k
  induction k with
  | zero =>
    intro Q pl h1 heq
    have hcond : ¬ ((Q.length : ℚ) < (3 : ℚ) ^ level) := by rw [heq]; simp
    rw [iterativeLoop, dif_neg hcond]
    simp [bfsPop]
  | succ n ih =>
    intro Q pl h1 heq
    cases Q with
    | nil => simp at h1
    | cons t rest =>
      have hcond : (((t :: rest).length : ℚ) < (3 : ℚ) ^ level) := by
        rw [heq]; push_cast; linarith
      rw [iterativeLoop, dif_pos hcond]
      have hlen : 1 ≤ (rest ++ childTasks m o t).length := by
        simp [childTasks]
      have heq' : (3 : ℚ) ^ level =
          ((rest ++ childTasks m o t).length : ℚ) + 2 * n := by
        rw [heq]; simp [childTasks]; ring
      have IH2 := ih (rest ++ childTasks m o t)
        (pl ++ taskTriangle m o t) hlen heq'
      simp [childTasks, leftTask, rightTask, vertTask, taskTriangle] at IH2
      simp [getEquilateral_eq m _ _ o ho, bfsPop, childTasks, leftTask,
        rightTask, vertTask, taskTriangle, IH2]

theorem length_flatMap_childTasks (m : JsMath) (o : ℚ) :
    ∀ (Q : List TriangleTask),
      (Q.flatMap (childTasks m o)).length = 3 * Q.length := by
  intro Q
  induction Q with
  | nil => simp
  | cons t Q ih => simp [childTasks, ih]; ring

theorem length_levelTasks (m : JsMath) (o : ℚ) :
    ∀ (d : ℕ) (Q : List TriangleTask),
      2 * (levelTasks m o d Q).length + Q.length = 3 ^ d * Q.length := by
  intro d
  induction d with
  | zero => intro Q; simp [levelTasks]
  | succ n ih =>
    intro Q
    have h := ih (Q.flatMap (childTasks m o))
    rw [length_flatMap_childTasks] at h
    simp only [levelTasks, List.length_append]
    rw [pow_succ]
    nlinarith [h]

theorem sierpinskiTriangleCount_spec :
    ∀ (d : ℕ), 2 * sierpinskiTriangleCount d + 1 = 3 ^ d := by
  intro d
  induction d with
  | zero => simp [sierpinskiTriangleCount]
  | succ n ih =>
    rw [sierpinskiTriangleCount, pow_succ]
    omega

theorem length_dfsTasks (m : JsMath) (o : ℚ) :
    ∀ (d : ℕ) (t : TriangleTask),
      (dfsTasks m o d t).length = sierpinskiTriangleCount d := by
  intro d
  induction d with
  | zero => intro t; simp [dfsTasks, sierpinskiTriangleCount]
  | succ n ih =>
    intro t
    simp [dfsTasks, childTasks, ih, sierpinskiTriangleCount]
    ring

theorem length_levelTasks_single (m : JsMath) (o : ℚ) (d : ℕ)
    (t : TriangleTask) :
    (levelTasks m o d [t]).length = sierpinskiTriangleCount d := by
  rw [← (dfsTasks_perm_levelTasks_single m o d t).length_eq]
  exact length_dfsTasks m o d t

theorem iterative_eq_some_nil (m : JsMath) (c : Point) (s : ℚ) (level : ℤ)
    (o : ℚ) (hlev : level ≤ 0) :
    iterativeSierpinskiTriangleRoutine m c s level o = some [] := by
  have hcond : ¬ ((([(⟨c, s⟩ : TriangleTask)] : List TriangleTask).length : ℚ)
      < (3 : ℚ) ^ level) := by
    have h1 : (3 : ℚ) ^ level ≤ 1 := zpow_le_one_of_nonpos₀ (by norm_num) hlev
    simp only [List.length_cons, List.length_nil]
    push_cast
    linarith
  rw [iterativeSierpinskiTriangleRoutine, iterativeLoop, dif_neg hcond]

theorem iterative_eq_levels (m : JsMath) (o : ℚ) (ho : o = 1 ∨ o = -1)
    (t : TriangleTask) (level : ℤ) (hlev : 1 ≤ level) :
    iterativeSierpinskiTriangleRoutine m t.centerPoint t.sideLength level o =
      some ((levelTasks m o level.toNat [t]).flatMap (taskTriangle m o)) := by
  have hnat : 2 * sierpinskiTriangleCount level.toNat + 1 = 3 ^ level.toNat :=
    sierpinskiTriangleCount_spec level.toNat
  have heq : (3 : ℚ) ^ level =
      ((([t] : List TriangleTask).length : ℚ)
        + 2 * (sierpinskiTriangleCount level.toNat)) := by
    have hc : (3 : ℚ) ^ level = ((3 ^ level.toNat : ℕ) : ℚ) := by
      rw [← Int.toNat_of_nonneg (by omega : (0:ℤ) ≤ level), zpow_natCast]
      push_cast
      rw [Int.toNat_of_nonneg (by omega : (0:ℤ) ≤ level)]
    rw [hc, ← hnat]
    push_cast
    simp
    ring
  have h := iterativeLoop_eq m level o ho (sierpinskiTriangleCount level.toNat)
    [t] [] (by simp) heq
  rw [iterativeSierpinskiTriangleRoutine]
  have hmk : (⟨t.centerPoint, t.sideLength⟩ : TriangleTask) = t := rfl
  rw [hmk, h]
  rw [← length_levelTasks_single m o level.toNat t,
    frontier_levelTasks m o level.toNat [t]]
  simp

theorem arrowheadCurve_spec (m : JsMath) (o : ℚ) (ho : o = 1 ∨ o = -1) :
    ∀ (d : ℕ) (f : Point) (s a ac : ℚ),
      ((arrowheadCurve m d f s a ac o).isSome = headingsOk d a ac) ∧
      (∀ r, arrowheadCurve m d f s a ac o = some r →
        r.2.2 = a + netTurn d ac ∧ r.1.length = 3 ^ d ∧
        ∀ x ∈ r.1, ∃ p, x = Seg.L p) := by
  intro d
  induction d with
  | zero =>
    intro f s a ac
    have hiff : (o * a > RADIANS_360_DEGREES ∨ o * a < -RADIANS_360_DEGREES) ↔
        (a > RADIANS_360_DEGREES ∨ a < -RADIANS_360_DEGREES) := by
      rcases ho with h | h <;> subst h
      · simp
      · constructor
        · rintro (h1 | h1)
          · exact Or.inr (by linarith)
          · exact Or.inl (by linarith)
        · rintro (h1 | h1)
          · exact Or.inr (by linarith)
          · exact Or.inl (by linarith)
    by_cases hc : a > RADIANS_360_DEGREES ∨ a < -RADIANS_360_DEGREES
    · constructor
      · simp [arrowheadCurve, getNextPoint, headingsOk, hc, hiff.mpr hc]
      · intro r hr
        simp [arrowheadCurve, getNextPoint, hiff.mpr hc] at hr
    · constructor
      · simp [arrowheadCurve, getNextPoint, headingsOk, hc, hiff]
      · intro r hr
        simp [arrowheadCurve, getNextPoint, hiff, hc] at hr
        subst hr
        simp [netTurn]
  | succ n ih =>
    intro f s a ac
    cases h1 : arrowheadCurve m n f (s/2) a (-ac) o with
    | none =>
      have hok1 : headingsOk n a (-ac) = false := by
        have h := (ih f (s/2) a (-ac)).1
        rw [h1] at h
        simpa using h.symm
      constructor
      · simp [arrowheadCurve, h1, headingsOk, hok1]
      · intro r hr
        simp [arrowheadCurve, h1] at hr
    | some r1 =>
      have hok1 : headingsOk n a (-ac) = true := by
        have h := (ih f (s/2) a (-ac)).1
        rw [h1] at h
        simpa using h.symm
      obtain ⟨ha1, hl1, hm1⟩ := (ih f (s/2) a (-ac)).2 r1 h1
      cases h2 : arrowheadCurve m n r1.2.1 (s/2)
          (r1.2.2 + ac * RADIANS_60_DEGREES) ac o with
      | none =>
        have hok2 : headingsOk n (a + netTurn n (-ac) + ac * RADIANS_60_DEGREES)
            ac = false := by
          have h := (ih r1.2.1 (s/2) (r1.2.2 + ac * RADIANS_60_DEGREES) ac).1
          rw [h2] at h
          rw [ha1] at h
          simpa using h.symm
        constructor
        · simp [arrowheadCurve, h1, h2, headingsOk, hok2]
        · intro r hr
          simp [arrowheadCurve, h1, h2] at hr
      | some r2 =>
        have hok2 : headingsOk n (a + netTurn n (-ac) + ac * RADIANS_60_DEGREES)
            ac = true := by
          have h := (ih r1.2.1 (s/2) (r1.2.2 + ac * RADIANS_60_DEGREES) ac).1
          rw [h2] at h
          rw [ha1] at h
          simpa using h.symm
        obtain ⟨ha2, hl2, hm2⟩ :=
          (ih r1.2.1 (s/2) (r1.2.2 + ac * RADIANS_60_DEGREES) ac).2 r2 h2
        cases h3 : arrowheadCurve m n r2.2.1 (s/2)
            (r2.2.2 + ac * RADIANS_60_DEGREES) (-ac) o with
        | none =>
          have hok3 : headingsOk n (a + netTurn n (-ac) + ac * RADIANS_60_DEGREES
              + netTurn n ac + ac * RADIANS_60_DEGREES) (-ac) = false := by
            have h := (ih r2.2.1 (s/2) (r2.2.2 + ac * RADIANS_60_DEGREES)
              (-ac)).1
            rw [h3] at h
            rw [ha2, ha1] at h
            simpa using h.symm
          constructor
          · simp [arrowheadCurve, h1, h2, h3, headingsOk, hok3]
          · intro r hr
            simp [arrowheadCurve, h1, h2, h3] at hr
        | some r3 =>
          have hok3 : headingsOk n (a + netTurn n (-ac) + ac * RADIANS_60_DEGREES
              + netTurn n ac + ac * RADIANS_60_DEGREES) (-ac) = true := by
            have h := (ih r2.2.1 (s/2) (r2.2.2 + ac * RADIANS_60_DEGREES)
              (-ac)).1
            rw [h3] at h
            rw [ha2, ha1] at h
            simpa using h.symm
          obtain ⟨ha3, hl3, hm3⟩ := (ih r2.2.1 (s/2)
            (r2.2.2 + ac * RADIANS_60_DEGREES) (-ac)).2 r3 h3
          constructor
          · simp [arrowheadCurve, h1, h2, h3, headingsOk, hok1, hok2, hok3]
          · intro r hr
            simp [arrowheadCurve, h1, h2, h3] at hr
            subst hr
            refine ⟨?_, ?_, ?_⟩
            · rw [ha3, ha2, ha1]
              simp only [netTurn, neg_one_mul]
              ring
            · simp [hl1, hl2, hl3, pow_succ]
              ring
            · intro x hx
              simp at hx
              rcases hx with hx | hx | hx
              · exact hm1 x hx
              · exact hm2 x hx
              · exact hm3 x hx

theorem netTurn_eq : ∀ (d : ℕ) (ac : ℚ),
    netTurn d ac = if d % 2 = 1 then 2 * ac * RADIANS_60_DEGREES else 0 := by
  intro d
  induction d with
  | zero => intro ac; simp [netTurn]
  | succ n ih =>
    intro ac
    rw [netTurn, ih, ih]
    by_cases hn : n % 2 = 1
    · rw [if_pos hn, if_pos hn, if_neg (by omega)]
      ring
    · rw [if_neg hn, if_neg hn, if_pos (by omega)]
      ring

theorem headingsOk_step_c1 (d : ℕ) (a ac ac2 : ℚ) (hac : -ac = ac2)
    (h : headingsOk d a ac2 = false) : headingsOk (d + 1) a ac = false := by
  rw [headingsOk]
  simp only [neg_one_mul]
  rw [hac, h, Bool.false_and, Bool.false_and]

theorem headingsOk_step_c3 (d : ℕ) (a ac a3 ac2 : ℚ) (hac : -ac = ac2)
    (ha : a + netTurn d (-ac) + ac * RADIANS_60_DEGREES + netTurn d ac
        + ac * RADIANS_60_DEGREES = a3)
    (h : headingsOk d a3 ac2 = false) : headingsOk (d + 1) a ac = false := by
  rw [headingsOk]
  simp only [neg_one_mul]
  rw [ha, hac, h, Bool.and_false]

/-- At depth 7 the arrowhead turtle reaches the heading `7 * 60° = 420°`,
which exceeds the `2π` bound of `getNextPoint`.  The witnessing draw is
reached through the third child at levels 7, 5, 3, 1 and the first child at
levels 6, 4, 2. -/
theorem headingsOk_level7_false :
    headingsOk 7 (-RADIANS_60_DEGREES) 1 = false := by
  have h0 : headingsOk 0 (7 * RADIANS_60_DEGREES) (-1) = false := by
    have hcond : 7 * RADIANS_60_DEGREES > RADIANS_360_DEGREES ∨
        7 * RADIANS_60_DEGREES < -RADIANS_360_DEGREES :=
      Or.inl (by norm_num [RADIANS_60_DEGREES, RADIANS_360_DEGREES, MathPI])
    rw [headingsOk, if_pos hcond]
  have h1 : headingsOk 1 (5 * RADIANS_60_DEGREES) 1 = false :=
    headingsOk_step_c3 0 _ _ (7 * RADIANS_60_DEGREES) (-1) (by norm_num)
      (by simp [netTurn]; ring) h0
  have h2 : headingsOk 2 (5 * RADIANS_60_DEGREES) (-1) = false :=
    headingsOk_step_c1 1 _ _ _ (by norm_num) h1
  have h3 : headingsOk 3 (3 * RADIANS_60_DEGREES) 1 = false :=
    headingsOk_step_c3 2 _ _ (5 * RADIANS_60_DEGREES) (-1) (by norm_num)
      (by simp [netTurn_eq]; ring) h2
  have h4 : headingsOk 4 (3 * RADIANS_60_DEGREES) (-1) = false :=
    headingsOk_step_c1 3 _ _ _ (by norm_num) h3
  have h5 : headingsOk 5 (1 * RADIANS_60_DEGREES) 1 = false :=
    headingsOk_step_c3 4 _ _ (3 * RADIANS_60_DEGREES) (-1) (by norm_num)
      (by simp [netTurn_eq]; ring) h4
  have h6 : headingsOk 6 (1 * RADIANS_60_DEGREES) (-1) = false :=
    headingsOk_step_c1 5 _ _ _ (by norm_num) h5
  exact headingsOk_step_c3 6 _ _ (1 * RADIANS_60_DEGREES) (-1) (by norm_num)
    (by simp [netTurn_eq]) h6

theorem coerceOrientation_cases (x : Option ℚ) :
    coerceOrientation x = 1 ∨ coerceOrientation x = -1 := by
  cases x with
  | none => exact Or.inl rfl
  | some v =>
    by_cases h : v = -1 ∨ v = 1
    · rcases h with h | h <;> simp [coerceOrientation, h]
    · simp [coerceOrientation, h]

theorem arrowheadCurve_seven_none (m : JsMath) (o : ℚ) (ho : o = 1 ∨ o = -1)
    (f : Point) (s : ℚ) :
    arrowheadCurve m 7 f s (-RADIANS_60_DEGREES) 1 o = none := by
  have h := (arrowheadCurve_spec m o ho 7 f s (-RADIANS_60_DEGREES) 1).1
  rw [headingsOk_level7_false] at h
  exact Option.not_isSome_iff_eq_none.mp (by simp [h])

set_option maxHeartbeats 1000000 in
theorem headingsOk_depth1 : headingsOk 1 (-RADIANS_60_DEGREES) 1 = true := by
  norm_num [headingsOk, netTurn_eq, RADIANS_60_DEGREES, RADIANS_360_DEGREES,
    MathPI]

set_option maxHeartbeats 1000000 in
theorem headingsOk_depth2 : headingsOk 2 0 1 = true := by
  norm_num [headingsOk, netTurn_eq, RADIANS_60_DEGREES, RADIANS_360_DEGREES,
    MathPI]

set_option maxHeartbeats 1000000 in
theorem headingsOk_depth3 : headingsOk 3 (-RADIANS_60_DEGREES) 1 = true := by
  norm_num [headingsOk, netTurn_eq, RADIANS_60_DEGREES, RADIANS_360_DEGREES,
    MathPI]

set_option maxHeartbeats 2000000 in
theorem headingsOk_depth4 : headingsOk 4 0 1 = true := by
  norm_num [headingsOk, netTurn_eq, RADIANS_60_DEGREES, RADIANS_360_DEGREES,
    MathPI]

set_option maxHeartbeats 4000000 in
theorem headingsOk_depth5 : headingsOk 5 (-RADIANS_60_DEGREES) 1 = true := by
  norm_num [headingsOk, netTurn_eq, RADIANS_60_DEGREES, RADIANS_360_DEGREES,
    MathPI]

set_option maxHeartbeats 8000000 in
theorem headingsOk_depth6 : headingsOk 6 0 1 = true := by
  norm_num [headingsOk, netTurn_eq, RADIANS_60_DEGREES, RADIANS_360_DEGREES,
    MathPI]

theorem arrowhead_wrapper_some (m : JsMath) (c : Point) (s : ℚ)
    (oOpt : Option ℚ) (lv : ℤ) (h1 : 1 ≤ lv)
    (hok : headingsOk lv.toNat
      (if lv % 2 = 0 then 0 else -RADIANS_60_DEGREES) 1 = true) :
    ∃ l, getSierpinskiArrowheadCurve m c s ⟨some lv, oOpt⟩ = some l ∧
      l.length = 3 ^ lv.toNat + 1 ∧
      ∃ p rest, l = Seg.M p :: rest ∧ ∀ x ∈ rest, ∃ q, x = Seg.L q := by
  have ho := coerceOrientation_cases oOpt
  have hlv : jsOrOZ (some lv) 3 = lv := by
    simp only [jsOrOZ, jsOrZ]
    rw [if_neg (by omega)]
  have hspec := arrowheadCurve_spec m (coerceOrientation oOpt) ho lv.toNat
    ⟨c.X - (1/2) * s,
     c.Y + coerceOrientation oOpt * (1/2) *
       (getTriangleHeight m ((2 * MathPI) / 6) s)⟩ s
    (if lv % 2 = 0 then 0 else -RADIANS_60_DEGREES) 1
  obtain ⟨r, hr⟩ := Option.isSome_iff_exists.mp (hspec.1.trans hok)
  obtain ⟨_, hlen, hmem⟩ := hspec.2 r hr
  refine ⟨Seg.M ⟨c.X - (1/2) * s,
      c.Y + coerceOrientation oOpt * (1/2) *
        (getTriangleHeight m ((2 * MathPI) / 6) s)⟩ :: r.1, ?_, ?_, ?_⟩
  · simp only [getSierpinskiArrowheadCurve, hlv, zero_sub]
    rw [if_neg (by omega : ¬ lv < 0), hr]
    rfl
  · simp [hlen]
  · exact ⟨_, r.1, rfl, fun x hx => hmem x hx⟩

/-- At depth 7, the arrowhead generator crashes: the heading reaches
`420° > 2π`, `getNextPoint` refuses it and the source dereferences
`undefined` — modelled as producing no path. -/
theorem arrowhead_wrapper_seven_none (m : JsMath) (c : Point) (s : ℚ)
    (oOpt : Option ℚ) :
    getSierpinskiArrowheadCurve m c s ⟨some 7, oOpt⟩ = none := by
  have ho := coerceOrientation_cases oOpt
  have hlv : jsOrOZ (some (7 : ℤ)) 3 = 7 := by
    simp only [jsOrOZ, jsOrZ]
    rw [if_neg (by omega)]
  simp only [getSierpinskiArrowheadCurve, hlv, zero_sub]
  rw [if_neg (by omega : ¬ (7 : ℤ) < 0),
    if_neg (by omega : ¬ (7 : ℤ) % 2 = 0)]
  rw [show ((7 : ℤ)).toNat = 7 from rfl]
  rw [arrowheadCurve_seven_none m (coerceOrientation oOpt) ho _ s]
  rfl

theorem counts_taskTriangle (m : JsMath) (o : ℚ) (t : TriangleTask) :
    countLineTo (taskTriangle m o t) = 3 ∧
    countMoveTo (taskTriangle m o t) = 1 := by
  simp [taskTriangle, equilateralTriangleSegs, countLineTo, countMoveTo,
    List.countP_cons, List.countP_nil, isL, isM]

theorem counts_flatMap_taskTriangle (m : JsMath) (o : ℚ) :
    ∀ (tasks : List TriangleTask),
      countLineTo (tasks.flatMap (taskTriangle m o)) = 3 * tasks.length ∧
      countMoveTo (tasks.flatMap (taskTriangle m o)) = tasks.length ∧
      (tasks.flatMap (taskTriangle m o)).length = 4 * tasks.length := by
  intro tasks
  induction tasks with
  | nil => simp [countLineTo, countMoveTo]
  | cons t ts ih =>
    obtain ⟨ih1, ih2, ih3⟩ := ih
    obtain ⟨h1, h2⟩ := counts_taskTriangle m o t
    have hlen : (taskTriangle m o t).length = 4 := by
      simp [taskTriangle, equilateralTriangleSegs]
    simp only [List.flatMap_cons, countLineTo, countMoveTo,
      List.countP_append, List.length_append, List.length_cons]
    simp only [countLineTo, countMoveTo] at ih1 ih2 h1 h2
    rw [h1, h2, ih1, ih2, ih3, hlen]
    omega

theorem countL_equilateral (m : JsMath) (sp : Point) (s o : ℚ) :
    countLineTo (equilateralTriangleSegs m sp s o) = 3 ∧
    countMoveTo (equilateralTriangleSegs m sp s o) = 1 := by
  simp [equilateralTriangleSegs, countLineTo, countMoveTo,
    List.countP_cons, List.countP_nil, isL, isM]

theorem pythagorasTreeRoutine_eq (m : JsMath) :
    ∀ (k : ℕ) (level : ℤ), level.toNat = k →
    ∀ (pl : List Seg) (c : Point) (o s : ℚ) (e : Option EdgeFn),
      pythagorasTreeRoutine m level pl c o s e =
        pl ++ pythagorasSegs m k c o s e := by
  intro k
  induction k with
  | zero =>
    intro level hk pl c o s e
    rw [pythagorasTreeRoutine, if_pos (by omega)]
    simp [pythagorasSegs]
  | succ n ih =>
    intro level hk pl c o s e
    rw [pythagorasTreeRoutine, if_neg (by omega)]
    rw [ih (level - 1) (by omega), ih (level - 1) (by omega)]
    simp [pythagorasSegs, List.append_assoc]

theorem pythagorasSegs_length (m : JsMath) :
    ∀ (k : ℕ) (c : Point) (o s : ℚ) (e : Option EdgeFn),
      (pythagorasSegs m k c o s e).length = 6 * (2 ^ k - 1) := by
  intro k
  induction k with
  | zero => intro c o s e; simp [pythagorasSegs]
  | succ n ih =>
    intro c o s e
    have h2 : 1 ≤ 2 ^ n := Nat.one_le_two_pow
    have hsq : (pythagorasTreeSquare m c o s e).length = 6 := by
      simp [pythagorasTreeSquare]
    simp only [pythagorasSegs, List.length_append, hsq, ih, pow_succ]
    omega

theorem pythagorasSegs_tags (m : JsMath) :
    ∀ (k : ℕ) (c : Point) (o s : ℚ),
      (pythagorasSegs m k c o s none).map isM =
        (List.replicate (2 ^ k - 1)
          [true, true, false, false, false, false]).flatten ∧
      (pythagorasSegs m k c o s none).map isL =
        (List.replicate (2 ^ k - 1)
          [false, false, true, true, true, true]).flatten := by
  intro k
  induction k with
  | zero => intro c o s; simp [pythagorasSegs]
  | succ n ih =>
    intro c o s
    have h2 : 1 ≤ 2 ^ n := Nat.one_le_two_pow
    have hrep : 2 ^ (n + 1) - 1 = 1 + ((2 ^ n - 1) + (2 ^ n - 1)) := by
      have := pow_succ 2 n
      omega
    have hsqM : (pythagorasTreeSquare m c o s none).map isM =
        [true, true, false, false, false, false] := by
      simp [pythagorasTreeSquare, getStraightPath, isM]
    have hsqL : (pythagorasTreeSquare m c o s none).map isL =
        [false, false, true, true, true, true] := by
      simp [pythagorasTreeSquare, getStraightPath, isL]
    constructor
    · simp only [pythagorasSegs, List.map_append, hsqM, (ih _ _ _).1, hrep,
        List.replicate_add, List.flatten_append, List.replicate_one,
        List.flatten_cons, List.flatten_nil, List.append_nil,
        List.append_assoc]
    · simp only [pythagorasSegs, List.map_append, hsqL, (ih _ _ _).2, hrep,
        List.replicate_add, List.flatten_append, List.replicate_one,
        List.flatten_cons, List.flatten_nil, List.append_nil,
        List.append_assoc]

theorem getPythagorasTree_eq (m : JsMath) (origin : Point) (s : ℚ)
    (options : PythagorasOptions) :
    getPythagorasTree m origin s options =
      pythagorasSegs m (jsOrOZ options.levels 4).toNat origin
        (jsOrOQ options.orientation (-RADIANS_90_DEGREES)) s
        options.edgePathFunction := by
  rw [getPythagorasTree,
    pythagorasTreeRoutine_eq m (jsOrOZ options.levels 4).toNat _ rfl]
  simp

theorem pythagorasSegs_head (m : JsMath) (k : ℕ) (c : Point) (o s : ℚ)
    (e : Option EdgeFn) (hk : 1 ≤ k) :
    (pythagorasSegs m k c o s e)[0]? = some (Seg.M c) ∧
    ∃ p, (pythagorasSegs m k c o s e)[1]? = some (Seg.M p) := by
  obtain ⟨n, rfl⟩ : ∃ n, k = n + 1 := ⟨k - 1, by omega⟩
  constructor
  · simp [pythagorasSegs, pythagorasTreeSquare]
  · refine ⟨rotatePoint m
      ⟨c.X - (1/2) * (s * MathSqrt2) * m.cos RADIANS_45_DEGREES,
       c.Y + (1/2) * (s * MathSqrt2) * m.sin RADIANS_45_DEGREES⟩ o
      (some c), ?_⟩
    simp [pythagorasSegs, pythagorasTreeSquare]

theorem getPythagorasTree_eq' (m : JsMath) (origin : Point) (s : ℚ)
    (lv : Option ℤ) (oO : Option ℚ) (e : Option EdgeFn) :
    getPythagorasTree m origin s ⟨lv, oO, e⟩ =
      pythagorasSegs m (jsOrOZ lv 4).toNat origin
        (jsOrOQ oO (-RADIANS_90_DEGREES)) s e :=
  getPythagorasTree_eq m origin s ⟨lv, oO, e⟩

theorem arrowhead_wrapper_shape (m : JsMath) (c : Point) (s : ℚ)
    (opts : ArrowheadOptions) (l : List Seg)
    (h : getSierpinskiArrowheadCurve m c s opts = some l) :
    ∃ p rest, l = Seg.M p :: rest ∧ ∀ x ∈ rest, ∃ q, x = Seg.L q := by
  have ho := coerceOrientation_cases opts.orientation
  simp only [getSierpinskiArrowheadCurve] at h
  by_cases hneg : jsOrOZ opts.level 3 < 0
  · rw [if_pos hneg] at h
    simp at h
  · rw [if_neg hneg] at h
    obtain ⟨r, hr, hl⟩ := Option.map_eq_some'.mp h
    obtain ⟨-, -, hmem⟩ :=
      (arrowheadCurve_spec m (coerceOrientation opts.orientation) ho
        (jsOrOZ opts.level 3).toNat _ s _ 1).2 r hr
    exact ⟨_, r.1, hl.symm, fun x hx => hmem x hx⟩

theorem triangle_wrapper_head (m : JsMath) (c : Point) (s : ℚ) (ord : ℤ)
    (o : ℚ) :
    ∃ p q rest,
      getSierpinskiTriangle m c s ord o = some (Seg.M p :: Seg.L q :: rest) := by
  by_cases ho : o = -1 ∨ o = 1
  · have ho' : o = 1 ∨ o = -1 := ho.symm
    have hno : -o = 1 ∨ -o = -1 := by
      rcases ho' with h | h <;> subst h <;> norm_num
    have hrt : sierpinskiTriangleRoutine m c (s/2) (jsOrZ ord 3) o =
        some (dfsSegs m o (jsOrZ ord 3).toNat ⟨c, s/2⟩) :=
      sierpinskiTriangleRoutine_eq_dfs m o ho' (jsOrZ ord 3).toNat
        (jsOrZ ord 3) rfl ⟨c, s/2⟩
    simp only [getSierpinskiTriangle]
    rw [if_pos ho, getEquilateral_eq m _ s (-o) hno, hrt]
    exact ⟨_, _, _, rfl⟩
  · have hrt : sierpinskiTriangleRoutine m c (s/2) (jsOrZ ord 3) 1 =
        some (dfsSegs m 1 (jsOrZ ord 3).toNat ⟨c, s/2⟩) :=
      sierpinskiTriangleRoutine_eq_dfs m 1 (Or.inl rfl) (jsOrZ ord 3).toNat
        (jsOrZ ord 3) rfl ⟨c, s/2⟩
    simp only [getSierpinskiTriangle]
    rw [if_neg ho, getEquilateral_eq m _ s (-1) (Or.inr rfl), hrt]
    exact ⟨_, _, _, rfl⟩

/-! ### Claim theorems -/

/-- C1: for every depth `level`, centre, side length and valid orientation
(`±1`), the recursive routine (with the default `levelChange {1,1,1}`) and
the iterative routine both succeed and produce path lists with the same
number of segments and the same multiset of endpoint `Point`s — they differ
only in emission order (depth-first vs breadth-first over the same task
tree). -/
theorem claim_C1_recursive_iterative_equiv (m : JsMath) (c : Point) (s : ℚ)
    (level : ℤ) (o : ℚ) (ho : o = 1 ∨ o = -1) :
    ∃ Lr Li,
      recursiveSierpinskiTriangleRoutine m c s level o = some Lr ∧
      iterativeSierpinskiTriangleRoutine m c s level o = some Li ∧
      Li.length = Lr.length ∧
      (↑(Li.map segEndPoint) : Multiset Point) = ↑(Lr.map segEndPoint) := by
  have hrec := recursiveSierpinskiTriangleRoutine_eq_dfs m o ho
    level.toNat level rfl ⟨c, s⟩
  by_cases hlev : 1 ≤ level
  · have hit := iterative_eq_levels m o ho ⟨c, s⟩ level hlev
    have hperm : List.Perm (dfsSegs m o level.toNat ⟨c, s⟩)
        ((levelTasks m o level.toNat [⟨c, s⟩]).flatMap (taskTriangle m o)) := by
      rw [dfsSegs_eq_flatMap]
      exact (dfsTasks_perm_levelTasks_single m o level.toNat
        ⟨c, s⟩).flatMap_right (taskTriangle m o)
    exact ⟨dfsSegs m o level.toNat ⟨c, s⟩,
      (levelTasks m o level.toNat [⟨c, s⟩]).flatMap (taskTriangle m o),
      hrec, hit, hperm.symm.length_eq,
      Multiset.coe_eq_coe.mpr ((hperm.symm).map segEndPoint)⟩
  · have h0 : level ≤ 0 := by omega
    have hit := iterative_eq_some_nil m c s level o h0
    have ht0 : level.toNat = 0 := by omega
    rw [ht0] at hrec
    exact ⟨[], [], by simpa [dfsSegs] using hrec, hit, rfl, rfl⟩

/-- C3 (counterexample): at depth 7 the arrowhead generator produces no
path at all — a turtle heading reaches `420° > 2π`, so `getNextPoint`
returns `undefined` and the source crashes in `addLine` — contradicting the
claim that every depth `d ≥ 0` yields one MoveTo followed by `3^d` LineTo
segments. -/
theorem claim_C3_counterexample :
    getSierpinskiArrowheadCurve mEx ⟨0, 0⟩ 1 ⟨some 7, some 1⟩ = none ∧
    (getSierpinskiArrowheadCurve mEx ⟨0, 0⟩ 1 ⟨some 7, some 1⟩).map
      List.length ≠ some (3 ^ 7 + 1) := by
  have h := arrowhead_wrapper_seven_none mEx ⟨0, 0⟩ 1 (some 1)
  exact ⟨h, by rw [h]; simp⟩

/-- C3 (amended): for depths `1 ≤ d ≤ 6` the arrowhead generator produces
exactly one initial MoveTo followed by `3^d` LineTo segments (any
orientation value — non-`±1` orientations are coerced); at depth 7 the
turtle heading exceeds the `2π` bound of `getNextPoint` and no path is
produced; depth 0 is coerced by `options.level || 3` to the default depth
3. -/
theorem claim_C3_amended (m : JsMath) (c : Point) (s : ℚ) (oOpt : Option ℚ)
    (lv : ℤ) (h1 : 1 ≤ lv) (h6 : lv ≤ 6) :
    (∃ l, getSierpinskiArrowheadCurve m c s ⟨some lv, oOpt⟩ = some l ∧
      l.length = 3 ^ lv.toNat + 1 ∧
      ∃ p rest, l = Seg.M p :: rest ∧ ∀ x ∈ rest, ∃ q, x = Seg.L q) ∧
    getSierpinskiArrowheadCurve m c s ⟨some 7, oOpt⟩ = none ∧
    getSierpinskiArrowheadCurve m c s ⟨some 0, oOpt⟩ =
      getSierpinskiArrowheadCurve m c s ⟨some 3, oOpt⟩ := by
  refine ⟨?_, arrowhead_wrapper_seven_none m c s oOpt, ?_⟩
  · apply arrowhead_wrapper_some m c s oOpt lv h1
    interval_cases lv
    · simpa using headingsOk_depth1
    · simpa using headingsOk_depth2
    · simpa using headingsOk_depth3
    · simpa using headingsOk_depth4
    · simpa using headingsOk_depth5
    · simpa using headingsOk_depth6
  · have h03 : jsOrOZ (some (0 : ℤ)) 3 = jsOrOZ (some (3 : ℤ)) 3 := by
      simp [jsOrOZ, jsOrZ]
    simp only [getSierpinskiArrowheadCurve, h03]

/-- Witness for C3 (amended) at depth 2. -/
theorem claim_C3_witness :
    ((1 : ℤ) ≤ 2 ∧ (2 : ℤ) ≤ 6) ∧
    ((∃ l, getSierpinskiArrowheadCurve mEx ⟨0, 0⟩ 1 ⟨some 2, some 1⟩ =
        some l ∧
      l.length = 3 ^ (2 : ℤ).toNat + 1 ∧
      ∃ p rest, l = Seg.M p :: rest ∧ ∀ x ∈ rest, ∃ q, x = Seg.L q) ∧
    getSierpinskiArrowheadCurve mEx ⟨0, 0⟩ 1 ⟨some 7, some 1⟩ = none ∧
    getSierpinskiArrowheadCurve mEx ⟨0, 0⟩ 1 ⟨some 0, some 1⟩ =
      getSierpinskiArrowheadCurve mEx ⟨0, 0⟩ 1 ⟨some 3, some 1⟩) :=
  ⟨⟨by norm_num, by norm_num⟩,
   claim_C3_amended mEx ⟨0, 0⟩ 1 (some 1) 2 (by norm_num) (by norm_num)⟩

/-- C2 (counterexample): at order 1 the recursive interior routine emits
one triangle, i.e. 3 LineTo segments — not `3^1 = 3` triangles with 9
LineTo segments as the claim counts. -/
theorem claim_C2_counterexample :
    (sierpinskiTriangleRoutine mEx ⟨0, 0⟩ 1 1 1).map countLineTo = some 3 ∧
    (3 : ℕ) ≠ 3 * 3 ^ 1 := by
  have h : sierpinskiTriangleRoutine mEx ⟨0, 0⟩ 1 1 1 =
      some (dfsSegs mEx 1 1 ⟨⟨0, 0⟩, 1⟩) :=
    sierpinskiTriangleRoutine_eq_dfs mEx 1 (Or.inl rfl) 1 1 rfl ⟨⟨0, 0⟩, 1⟩
  constructor
  · rw [h]
    simp [dfsSegs, taskTriangle, equilateralTriangleSegs, countLineTo,
      List.countP_cons, List.countP_nil, isL]
  · norm_num

/-- C2 (amended): at order `d ≥ 1` the recursive interior routine
`sierpinskiTriangleRoutine` emits `(3^d - 1)/2` interior triangles — each
contributing 3 LineTo segments (and one MoveTo) — and the
`getSierpinskiTriangle` wrapper adds one outer boundary triangle of 3
LineTo segments after 1 MoveTo. -/
theorem claim_C2_amended (m : JsMath) (c : Point) (s o : ℚ) (d : ℕ)
    (ho : o = 1 ∨ o = -1) (hd : 1 ≤ d) :
    ∃ L W,
      sierpinskiTriangleRoutine m c s (d : ℤ) o = some L ∧
      getSierpinskiTriangle m c s (d : ℤ) o = some W ∧
      2 * countLineTo L = 3 * (3 ^ d - 1) ∧
      countLineTo L = 3 * countMoveTo L ∧
      countLineTo W = countLineTo L + 3 ∧
      countMoveTo W = countMoveTo L + 1 := by
  have htn : ((d : ℤ)).toNat = d := by omega
  have hrtL : sierpinskiTriangleRoutine m c s (d : ℤ) o =
      some (dfsSegs m o d ⟨c, s⟩) :=
    sierpinskiTriangleRoutine_eq_dfs m o ho d (d : ℤ) htn ⟨c, s⟩
  have hrtI : sierpinskiTriangleRoutine m c (s/2) (d : ℤ) o =
      some (dfsSegs m o d ⟨c, s/2⟩) :=
    sierpinskiTriangleRoutine_eq_dfs m o ho d (d : ℤ) htn ⟨c, s/2⟩
  have hcountsL := counts_flatMap_taskTriangle m o (dfsTasks m o d ⟨c, s⟩)
  have hcountsI := counts_flatMap_taskTriangle m o (dfsTasks m o d ⟨c, s/2⟩)
  rw [← dfsSegs_eq_flatMap] at hcountsL hcountsI
  rw [length_dfsTasks] at hcountsL hcountsI
  have hspec := sierpinskiTriangleCount_spec d
  have hne : ¬ ((d : ℤ) = 0) := by omega
  have hcond : o = -1 ∨ o = 1 := ho.symm
  have hno : -o = 1 ∨ -o = -1 := by
    rcases ho with h | h <;> subst h <;> norm_num
  have hout := countL_equilateral m
    ⟨c.X - (1/2) * s, c.Y + o * (1/4) *
      (getTriangleHeight m ((2 * MathPI) / 6) s)⟩ s (-o)
  refine ⟨dfsSegs m o d ⟨c, s⟩,
    equilateralTriangleSegs m ⟨c.X - (1/2) * s, c.Y + o * (1/4) *
      (getTriangleHeight m ((2 * MathPI) / 6) s)⟩ s (-o)
      ++ dfsSegs m o d ⟨c, s/2⟩,
    hrtL, ?_, ?_, ?_, ?_, ?_⟩
  · simp only [getSierpinskiTriangle, jsOrZ]
    rw [if_neg hne, if_pos hcond,
      getEquilateral_eq m _ s (-o) hno, hrtI]
    rfl
  · rw [hcountsL.1]
    omega
  · rw [hcountsL.1, hcountsL.2.1]
  · simp only [countLineTo, List.countP_append]
    simp only [countLineTo] at hout hcountsL hcountsI
    rw [hout.1, hcountsL.1, hcountsI.1]
    omega
  · simp only [countMoveTo, List.countP_append]
    simp only [countMoveTo] at hout hcountsL hcountsI
    rw [hout.2, hcountsL.2.1, hcountsI.2.1]
    omega

/-- Witness for C2 (amended) at order 2. -/
theorem claim_C2_witness :
    (((1 : ℚ) = 1 ∨ (1 : ℚ) = -1) ∧ 1 ≤ 2) ∧
    (∃ L W,
      sierpinskiTriangleRoutine mEx ⟨0, 0⟩ 1 ((2 : ℕ) : ℤ) 1 = some L ∧
      getSierpinskiTriangle mEx ⟨0, 0⟩ 1 ((2 : ℕ) : ℤ) 1 = some W ∧
      2 * countLineTo L = 3 * (3 ^ 2 - 1) ∧
      countLineTo L = 3 * countMoveTo L ∧
      countLineTo W = countLineTo L + 3 ∧
      countMoveTo W = countMoveTo L + 1) :=
  ⟨⟨Or.inl rfl, by norm_num⟩,
   claim_C2_amended mEx ⟨0, 0⟩ 1 1 2 (Or.inl rfl) (by norm_num)⟩

/-- C8 (counterexample): calling `getSierpinskiTriangle` with centre
`{X:100, Y:100}`, side length 100, depth 0 and orientation `+1` does NOT
return just the outer boundary (4 segments): `order || 3` coerces depth 0
to the default 3, so the full depth-3 path of 56 segments is returned. -/
theorem claim_C8_counterexample :
    (getSierpinskiTriangle mEx ⟨100, 100⟩ 100 0 1).map List.length =
      some 56 ∧ (56 : ℕ) ≠ 4 := by
  have hrt : sierpinskiTriangleRoutine mEx ⟨100, 100⟩ 50 3 1 =
      some (dfsSegs mEx 1 3 ⟨⟨100, 100⟩, 50⟩) :=
    sierpinskiTriangleRoutine_eq_dfs mEx 1 (Or.inl rfl) 3 3 rfl
      ⟨⟨100, 100⟩, 50⟩
  have hlen := (counts_flatMap_taskTriangle mEx 1
    (dfsTasks mEx 1 3 ⟨⟨100, 100⟩, 50⟩)).2.2
  rw [← dfsSegs_eq_flatMap, length_dfsTasks] at hlen
  have hS : sierpinskiTriangleCount 3 = 13 := by
    simp [sierpinskiTriangleCount]
  constructor
  · simp only [getSierpinskiTriangle, jsOrZ]
    norm_num
    rw [getEquilateral_eq mEx _ 100 (-1) (Or.inr rfl), hrt]
    simp [equilateralTriangleSegs, hlen, hS]
  · norm_num

/-- C8 (amended): the interior routine at order 0 does return the empty
sequence, but `getSierpinskiTriangle` coerces order 0 to the default 3
(`order || 3`), so the wrapper returns the full depth-3 path rather than
just the boundary; the wrapper returns exactly the outer boundary
(1 MoveTo + 3 LineTo) for a non-zero order `≤ 0` such as `-1`. -/
theorem claim_C8_amended (m : JsMath) (c : Point) (s o : ℚ) :
    sierpinskiTriangleRoutine m c s 0 o = some [] ∧
    getSierpinskiTriangle m c s 0 o = getSierpinskiTriangle m c s 3 o ∧
    ∃ p q1 q2 q3, getSierpinskiTriangle m c s (-1) o =
      some [Seg.M p, Seg.L q1, Seg.L q2, Seg.L q3] := by
  refine ⟨?_, ?_, ?_⟩
  · rw [sierpinskiTriangleRoutine, if_pos le_rfl]
  · have h : jsOrZ (0 : ℤ) 3 = jsOrZ (3 : ℤ) 3 := by norm_num [jsOrZ]
    simp only [getSierpinskiTriangle, h]
  · by_cases ho : o = -1 ∨ o = 1
    · have hno : -o = 1 ∨ -o = -1 := by
        rcases ho with h | h <;> subst h <;> norm_num
      simp only [getSierpinskiTriangle, jsOrZ]
      rw [if_neg (by omega : ¬ (-1 : ℤ) = 0), if_pos ho,
        getEquilateral_eq m _ s (-o) hno,
        sierpinskiTriangleRoutine, if_pos (by omega : (-1 : ℤ) ≤ 0)]
      exact ⟨_, _, _, _, rfl⟩
    · simp only [getSierpinskiTriangle, jsOrZ]
      rw [if_neg (by omega : ¬ (-1 : ℤ) = 0), if_neg ho,
        getEquilateral_eq m _ s (-1) (Or.inr rfl),
        sierpinskiTriangleRoutine, if_pos (by omega : (-1 : ℤ) ≤ 0)]
      exact ⟨_, _, _, _, rfl⟩

/-- C5 (counterexample): the `src/js/util.js` `getNextPoint` accepts the
angle 7 — which lies outside `(-2π, 2π)` — because its guard compares the
radian angle against the raw number 360. -/
theorem claim_C5_counterexample :
    getNextPointUtil mEx ⟨0, 0⟩ 1 7 ≠ none ∧ 7 > 2 * MathPI := by
  constructor
  · norm_num [getNextPointUtil]
    exact Option.some_ne_none _
  · norm_num [MathPI]

/-- C5 (amended): the part_003/part_004 `getNextPoint` returns no point iff
the angle lies outside the closed interval `[-2π, 2π]` (the guard is
strict), while the `src/js/util.js` variant returns no point iff the angle
lies outside the open interval `(-360, 360)` taken as a raw number;
otherwise the returned point is `fromPoint` offset by `distance` along the
angle. -/
theorem claim_C5_amended (m : JsMath) (p : Point) (dist a : ℚ) :
    (getNextPoint m p dist a = none ↔
      a > RADIANS_360_DEGREES ∨ a < -RADIANS_360_DEGREES) ∧
    (getNextPointUtil m p dist a = none ↔ ¬(a < 360 ∧ a > -360)) ∧
    (¬(a > RADIANS_360_DEGREES ∨ a < -RADIANS_360_DEGREES) →
      getNextPoint m p dist a =
        some ⟨p.X + dist * m.cos a, p.Y + dist * m.sin a⟩) := by
  refine ⟨?_, ?_, ?_⟩
  · by_cases h : a > RADIANS_360_DEGREES ∨ a < -RADIANS_360_DEGREES <;>
      simp [getNextPoint, h]
  · by_cases h : a < 360 ∧ a > -360 <;> simp [getNextPointUtil, h]
  · intro h
    simp [getNextPoint, h]

/-- Witness for C5 (amended): at angle 1 the part_003 `getNextPoint`
returns the offset point. -/
theorem claim_C5_witness :
    ¬((1 : ℚ) > RADIANS_360_DEGREES ∨ (1 : ℚ) < -RADIANS_360_DEGREES) ∧
    getNextPoint mEx ⟨0, 0⟩ 1 1 =
      some ⟨0 + 1 * mEx.cos 1, 0 + 1 * mEx.sin 1⟩ := by
  have hh : ¬((1 : ℚ) > RADIANS_360_DEGREES ∨
      (1 : ℚ) < -RADIANS_360_DEGREES) := by
    norm_num [RADIANS_360_DEGREES, MathPI]
  exact ⟨hh, (claim_C5_amended mEx ⟨0, 0⟩ 1 1).2.2 hh⟩

/-- C9 (confirmed): rotating any point about any centre by angle 0 is the
identity, given the exact identities `cos 0 = 1` and `sin 0 = 0` (which
hold exactly for the IEEE-754 `Math.cos`/`Math.sin`). -/
theorem claim_C9_rotatePoint_zero (m : JsMath) (p c : Point)
    (hcos : m.cos 0 = 1) (hsin : m.sin 0 = 0) :
    rotatePoint m p 0 (some c) = p := by
  cases p with
  | mk x y =>
    cases c with
    | mk cx cy =>
      simp [rotatePoint, hcos, hsin]

/-- Witness for C9 at a concrete point, centre and trigonometry. -/
theorem claim_C9_witness :
    mExRot.cos 0 = 1 ∧ mExRot.sin 0 = 0 ∧
    rotatePoint mExRot ⟨3, 4⟩ 0 (some ⟨1, 2⟩) = ⟨3, 4⟩ :=
  ⟨rfl, rfl, claim_C9_rotatePoint_zero mExRot ⟨3, 4⟩ ⟨1, 2⟩ rfl rfl⟩

/-- C10 (confirmed): `getCatmullRomPathRandom` in
`src/js/pythagoras-tree.js` calls the undefined identifier
`etCatmullRomPath`, so every invocation throws a `ReferenceError` and never
yields a path segment. -/
theorem claim_C10_catmullRandom_error (random : ℚ)
    (fromPoint toPoint centerPoint : Point) :
    getCatmullRomPathRandom random fromPoint toPoint centerPoint =
      Except.error "ReferenceError: etCatmullRomPath is not defined" := rfl

/-- C4 (counterexample): `pythagorasTreeRoutine` at level 1 on an empty
path list emits one square — 6 entries — not `2^(1+1) - 1 = 3` squares
(18 entries) as the claim counts. -/
theorem claim_C4_counterexample :
    (pythagorasTreeRoutine mEx 1 [] ⟨0, 0⟩ 1 1 none).length = 6 ∧
    (6 : ℕ) ≠ 6 * (2 ^ (1 + 1) - 1) := by
  constructor
  · rw [pythagorasTreeRoutine_eq mEx 1 1 rfl]
    simp [pythagorasSegs_length]
  · norm_num

/-- C4 (amended): `pythagorasTreeRoutine` at level `d` on an empty path
list emits `2^d - 1` squares; the output has `6 * (2^d - 1)` entries, and
with the default straight-line edge function every consecutive group of 6
is 2 MoveTo segments followed by 4 LineTo edges. -/
theorem claim_C4_amended (m : JsMath) (c : Point) (o s : ℚ) (level : ℤ)
    (e : Option EdgeFn) :
    (pythagorasTreeRoutine m level [] c o s e).length =
      6 * (2 ^ level.toNat - 1) ∧
    (pythagorasTreeRoutine m level [] c o s none).map isM =
      (List.replicate (2 ^ level.toNat - 1)
        [true, true, false, false, false, false]).flatten ∧
    (pythagorasTreeRoutine m level [] c o s none).map isL =
      (List.replicate (2 ^ level.toNat - 1)
        [false, false, true, true, true, true]).flatten := by
  rw [pythagorasTreeRoutine_eq m level.toNat level rfl,
    pythagorasTreeRoutine_eq m level.toNat level rfl]
  simp only [List.nil_append]
  exact ⟨pythagorasSegs_length m level.toNat c o s e,
    (pythagorasSegs_tags m level.toNat c o s).1,
    (pythagorasSegs_tags m level.toNat c o s).2⟩

/-- C6 (counterexample): the Pythagoras tree's path begins with TWO MoveTo
segments (centre, then bottom-left corner), so its second segment is a
MoveTo, contradicting the claimed invariant. -/
theorem claim_C6_counterexample :
    ((getPythagorasTree mEx ⟨0, 0⟩ 1 ⟨some 1, none, none⟩)[0]?).map isM =
      some true ∧
    ((getPythagorasTree mEx ⟨0, 0⟩ 1 ⟨some 1, none, none⟩)[1]?).map isM =
      some true := by
  rw [getPythagorasTree_eq']
  rw [show (jsOrOZ (some (1 : ℤ)) 4).toNat = 1 from by
    norm_num [jsOrOZ, jsOrZ]]
  obtain ⟨h0, p, h1⟩ := pythagorasSegs_head mEx 1 ⟨0, 0⟩
    (jsOrOQ none (-RADIANS_90_DEGREES)) 1 none (by norm_num)
  rw [h0, h1]
  constructor <;> simp [isM]

/-- C6 (amended): the Sierpinski triangle and arrowhead generators emit
exactly one leading MoveTo (the second segment, when the path exists, is a
LineTo), but every Pythagoras tree square group begins with two MoveTo
segments — the tree path's first AND second segments are MoveTo. -/
theorem claim_C6_amended (m : JsMath) (c : Point) (s : ℚ) (ord : ℤ)
    (o : ℚ) (aOpts : ArrowheadOptions) (l : List Seg)
    (lvO : Option ℤ) (orO : Option ℚ) (eO : Option EdgeFn)
    (hp : 1 ≤ jsOrOZ lvO 4) :
    (∃ p q rest,
      getSierpinskiTriangle m c s ord o = some (Seg.M p :: Seg.L q :: rest)) ∧
    (getSierpinskiArrowheadCurve m c s aOpts = some l →
      ∃ p rest, l = Seg.M p :: rest ∧ ∀ x ∈ rest, ∃ q, x = Seg.L q) ∧
    ((getPythagorasTree m c s ⟨lvO, orO, eO⟩)[0]? = some (Seg.M c) ∧
     ∃ p, (getPythagorasTree m c s ⟨lvO, orO, eO⟩)[1]? = some (Seg.M p)) := by
  refine ⟨triangle_wrapper_head m c s ord o,
    fun h => arrowhead_wrapper_shape m c s aOpts l h, ?_⟩
  rw [getPythagorasTree_eq']
  exact pythagorasSegs_head m (jsOrOZ lvO 4).toNat c
    (jsOrOQ orO (-RADIANS_90_DEGREES)) s eO (by omega)

/-- Witness for C6 (amended) at concrete inputs. -/
theorem claim_C6_witness :
    (1 ≤ jsOrOZ (some 1) 4) ∧
    ((∃ p q rest, getSierpinskiTriangle mEx ⟨0, 0⟩ 1 1 1 =
        some (Seg.M p :: Seg.L q :: rest)) ∧
    (getSierpinskiArrowheadCurve mEx ⟨0, 0⟩ 1 ⟨some 1, some 1⟩ = some [] →
      ∃ p rest, ([] : List Seg) = Seg.M p :: rest ∧
        ∀ x ∈ rest, ∃ q, x = Seg.L q) ∧
    ((getPythagorasTree mEx ⟨0, 0⟩ 1 ⟨some 1, none, none⟩)[0]? =
        some (Seg.M ⟨0, 0⟩) ∧
     ∃ p, (getPythagorasTree mEx ⟨0, 0⟩ 1 ⟨some 1, none, none⟩)[1]? =
        some (Seg.M p))) :=
  ⟨by norm_num [jsOrOZ, jsOrZ],
   claim_C6_amended mEx ⟨0, 0⟩ 1 1 1 ⟨some 1, some 1⟩ [] (some 1) none none
     (by norm_num [jsOrOZ, jsOrZ])⟩

/-- C7 (counterexample): the Pythagoras tree generator does NOT coerce an
orientation of 5 to `+1`: the orientation is an angle in radians, and the
resulting path differs from the orientation-1 path. -/
theorem claim_C7_counterexample :
    getPythagorasTree mExCos ⟨0, 0⟩ 1 ⟨some 1, some 5, none⟩ ≠
      getPythagorasTree mExCos ⟨0, 0⟩ 1 ⟨some 1, some 1, none⟩ := by
  rw [getPythagorasTree_eq', getPythagorasTree_eq']
  rw [show (jsOrOZ (some (1 : ℤ)) 4).toNat = 1 from by
    norm_num [jsOrOZ, jsOrZ]]
  rw [show jsOrOQ (some (5 : ℚ)) (-RADIANS_90_DEGREES) = 5 from by
    norm_num [jsOrOQ, jsOrQ]]
  rw [show jsOrOQ (some (1 : ℚ)) (-RADIANS_90_DEGREES) = 1 from by
    norm_num [jsOrOQ, jsOrQ]]
  intro h
  have h2 := congrArg (fun l => l[1]?) h
  simp [pythagorasSegs, pythagorasTreeSquare, rotatePoint, mExCos] at h2
  norm_num [MathSqrt2, RADIANS_45_DEGREES, MathPI] at h2

/-- C7 (amended): the Sierpinski triangle and arrowhead generators coerce
every orientation other than `±1` to `+1`; the Pythagoras tree generator
instead treats its orientation as an angle in radians — any non-zero value
is used as-is (zero and a missing value default to `-π/2`). -/
theorem claim_C7_amended (m : JsMath) (c : Point) (s : ℚ) (ord : ℤ)
    (o : ℚ) (ho : ¬(o = -1 ∨ o = 1)) (lvA : Option ℤ) (lvP : Option ℤ)
    (eO : Option EdgeFn) (v : ℚ) (hv : v ≠ 0) :
    getSierpinskiTriangle m c s ord o = getSierpinskiTriangle m c s ord 1 ∧
    getSierpinskiArrowheadCurve m c s ⟨lvA, some o⟩ =
      getSierpinskiArrowheadCurve m c s ⟨lvA, some 1⟩ ∧
    getPythagorasTree m c s ⟨lvP, some v, eO⟩ =
      pythagorasTreeRoutine m (jsOrOZ lvP 4) [] c v s eO := by
  refine ⟨?_, ?_, ?_⟩
  · simp only [getSierpinskiTriangle]
    rw [if_neg ho]
    norm_num
  · have h1 : coerceOrientation (some o) = 1 := by
      simp [coerceOrientation, ho]
    have h2 : coerceOrientation (some 1) = 1 := by
      simp [coerceOrientation]
    simp only [getSierpinskiArrowheadCurve, h1, h2]
  · rw [getPythagorasTree]
    rw [show jsOrOQ (some v) (-RADIANS_90_DEGREES) = v from by
      simp [jsOrOQ, jsOrQ, hv]]

/-- Witness for C7 (amended) with orientation 5. -/
theorem claim_C7_witness :
    (¬((5 : ℚ) = -1 ∨ (5 : ℚ) = 1) ∧ (5 : ℚ) ≠ 0) ∧
    (getSierpinskiTriangle mEx ⟨0, 0⟩ 1 3 5 =
        getSierpinskiTriangle mEx ⟨0, 0⟩ 1 3 1 ∧
    getSierpinskiArrowheadCurve mEx ⟨0, 0⟩ 1 ⟨some 2, some 5⟩ =
        getSierpinskiArrowheadCurve mEx ⟨0, 0⟩ 1 ⟨some 2, some 1⟩ ∧
    getPythagorasTree mEx ⟨0, 0⟩ 1 ⟨some 1, some 5, none⟩ =
        pythagorasTreeRoutine mEx (jsOrOZ (some 1) 4) [] ⟨0, 0⟩ 5 1 none) :=
  ⟨⟨by norm_num, by norm_num⟩,
   claim_C7_amended mEx ⟨0, 0⟩ 1 3 5 (by norm_num) (some 2) (some 1) none 5
     (by norm_num)⟩

/-- Witness for C1: a concrete instance at depth 2. -/
theorem claim_C1_witness :
    ((1 : ℚ) = 1 ∨ (1 : ℚ) = -1) ∧
    (∃ Lr Li,
      recursiveSierpinskiTriangleRoutine mEx ⟨0, 0⟩ 1 2 1 = some Lr ∧
      iterativeSierpinskiTriangleRoutine mEx ⟨0, 0⟩ 1 2 1 = some Li ∧
      Li.length = Lr.length ∧
      (↑(Li.map segEndPoint) : Multiset Point) = ↑(Lr.map segEndPoint)) :=
  ⟨Or.inl rfl,
   claim_C1_recursive_iterative_equiv mEx ⟨0, 0⟩ 1 2 1 (Or.inl rfl)⟩

end Fractals
